import Mathlib

/-!
# glacierrestore: job reconciliation, restore orchestration and inventory processing

A shallow embedding of `main.go`, `glacier_api.go` and `inventory.go`.

* Go pointer fields are `Option` values and a dereference of nil is a panic
  (`Except Panic`); the job pointers held by slices and maps are themselves not nil.
* A Go `(value, error)` result is a pair whose second component is `none` for a nil error.
* The remote service, the JSON decoder, `os.Getwd` and the file system are explicit arguments.
* The file system holds regular files and directories; `os.Stat` answers no error,
  `os.ErrNotExist` or another error (a path below a regular file, a permission), and the
  program tells the last two apart with `errors.Is(err, os.ErrNotExist)`.
-/

set_option linter.dupNamespace false
set_option linter.unusedVariables false

namespace GlacierRestore

/-! ## Panics and pointers -/

/-- Abnormal termination of a Go function: the panic of a nil pointer dereference, or
`panic(err)`. -/
inductive Panic where
  | nilDeref
  | raised (err : String)
deriving DecidableEq

/-! ## Jobs and the job index (main.go) -/

/-- The fields of glacier.JobDescription that the program reads; each is a pointer in Go. -/
structure JobDescription where
  Action : Option String
  ArchiveId : Option String
  JobId : Option String
  JobDescription : Option String
  StatusCode : Option String
  CreationDate : Option String
  ArchiveSizeInBytes : Option Int
deriving DecidableEq

/-- A Go slice of jobs; `none` is the nil slice. -/
abbrev JobSlice := Option (List JobDescription)

/-- Elements of a slice, as seen by `range` and `append`. -/
def JobSlice.elems : JobSlice → List JobDescription
  | some l => l
  | none => []

/-- A Go `map[string]*glacier.JobDescription`, as a finite partial function. -/
abbrev JobMap := String → Option JobDescription

/-- The map literal `map[string]*glacier.JobDescription{}`. -/
def JobMap.empty : JobMap := fun _ => none

/-- The assignment `m[k] = v`. -/
def JobMap.insert (m : JobMap) (k : String) (v : JobDescription) : JobMap :=
  fun x => if x = k then some v else m x

/-- The JobFetcher interface: each query answers with a slice and an error. -/
structure JobFetcher where
  SuccessfulJobs : Int → JobSlice × Option String
  FailedJobs : Int → JobSlice × Option String
  InProgressJobs : Int → JobSlice × Option String

/-- The three results of FetchJobs; `none` is nil. -/
structure FetchResult where
  successJobs : JobSlice
  existingJobsMap : Option JobMap
  err : Option String

/-- Body of the index loop of FetchJobs (main.go 145-151) for one job. The duplicate
warning evaluates `*job.ArchiveId` and `*existingJob.JobId`. -/
def indexJob (existingJobsMap : JobMap) (job : JobDescription) : Except Panic JobMap :=
  match job.Action with
  | none => .error Panic.nilDeref
  | some action =>
    if action ≠ "ArchiveRetrieval" then .ok existingJobsMap
    else
      match job.ArchiveId with
      | none => .error Panic.nilDeref
      | some archiveId =>
        match existingJobsMap archiveId with
        | some existingJob =>
          match existingJob.JobId with
          | none => .error Panic.nilDeref
          | some _ => .ok (existingJobsMap.insert archiveId job)
        | none => .ok (existingJobsMap.insert archiveId job)

/-- The index loop of FetchJobs over `append(inProgressJobs, successJobs...)`. -/
def buildIndex : List JobDescription → JobMap → Except Panic JobMap
  | [], m => .ok m
  | job :: rest, m =>
    match indexJob m job with
    | .error p => .error p
    | .ok m1 => buildIndex rest m1

/-- FetchJobs of main.go. The error of the failed-jobs query is logged and then
overwritten by the error of the succeeded-jobs query. -/
def FetchJobs (gapi : JobFetcher) (maxJobCount : Int) : Except Panic FetchResult :=
  let failed := gapi.FailedJobs maxJobCount
  match gapi.SuccessfulJobs maxJobCount with
  | (_, some err) => .ok ⟨none, none, some err⟩
  | (successJobs, none) =>
    match gapi.InProgressJobs maxJobCount with
    | (_, some err) => .ok ⟨none, none, some err⟩
    | (inProgressJobs, none) =>
      match buildIndex (inProgressJobs.elems ++ successJobs.elems) JobMap.empty with
      | .error p => .error p
      | .ok existingJobsMap => .ok ⟨successJobs, some existingJobsMap, none⟩

/-- Whether a job is an archive retrieval for the archive k. -/
def retrievesArchive (k : String) (job : JobDescription) : Bool :=
  decide (job.Action = some "ArchiveRetrieval" ∧ job.ArchiveId = some k)

/-- The last job of a list that is an archive retrieval for the archive k. -/
def lastRetrieval (jobs : List JobDescription) (k : String) : Option JobDescription :=
  (jobs.filter (retrievesArchive k)).getLast?

/-! ## Paginated listing (glacier_api.go) -/

/-- One page of the ListJobs answer. -/
structure ListJobsOutput where
  JobList : List JobDescription

/-- A paginated listing: the pages the service would hand out, and the error of the
request that follows them, if that request fails. -/
structure Listing where
  pages : List ListJobsOutput
  err : Option String

/-- ListJobsPages of the SDK: each page is passed to the callback until the callback
answers false or the pages run out; the request error shows only when the pages ran out. -/
def ListJobsPages {σ : Type} (fn : σ → ListJobsOutput → Bool → σ × Bool) (err : Option String) :
    List ListJobsOutput → σ → σ × Option String
  | [], st => (st, err)
  | resp :: rest, st =>
    match fn st resp (rest.isEmpty && err.isNone) with
    | (st1, true) => ListJobsPages fn err rest st1
    | (st1, false) => (st1, none)

/-- The callback of GetJobs (glacier_api.go 20-26); the captured jobList is the state. -/
def getJobsPage (maxJobCount : Int) (jobList : List JobDescription) (resp : ListJobsOutput)
    (last : Bool) : List JobDescription × Bool :=
  let jobList1 := jobList ++ resp.JobList
  if (jobList1.length : Int) > maxJobCount then (jobList1, false) else (jobList1, true)

/-- GetJobs of glacier_api.go. -/
def GetJobs (listing : Listing) (maxJobCount : Int) : List JobDescription × Option String :=
  ListJobsPages (getJobsPage maxJobCount) listing.err listing.pages []

/-- Items of the first k pages of a listing. -/
def firstPages (pages : List ListJobsOutput) (k : Nat) : List JobDescription :=
  ((pages.take k).map ListJobsOutput.JobList).flatten

/-! ## Paths (path/filepath on Unix)

RestoredFilePath is `filepath.Abs(filepath.Join(...))`. The functions of the Go standard
library it calls are written out here for Unix paths; Clean works on the elements between
separators, which is what its byte loop computes.
-/

/-- Elements of a path between separators, as scanned by filepath.Clean. -/
def splitElems : List Char → List (List Char)
  | [] => [[]]
  | c :: cs =>
    if c = '/' then [] :: splitElems cs
    else
      match splitElems cs with
      | [] => [[c]]
      | e :: es => (c :: e) :: es

/-- Elements written with a separator between them (strings.Join with "/"). -/
def joinElems : List (List Char) → List Char
  | [] => []
  | [e] => e
  | e :: e1 :: es => e ++ '/' :: joinElems (e1 :: es)

/-- One turn of the element loop of filepath.Clean. The output buffer is kept as a stack
of elements, the last written first: an empty element and `.` are dropped, `..` removes
the last element if there is one to remove, is dropped at the root, and is written after a
leading run of `..` in a path that is not rooted. -/
def cleanStep (rooted : Bool) (stack : List (List Char)) (e : List Char) : List (List Char) :=
  if e = [] then stack
  else if e = ['.'] then stack
  else if e = ['.', '.'] then
    match stack with
    | [] => if rooted then [] else [['.', '.']]
    | top :: rest => if top = ['.', '.'] then ['.', '.'] :: top :: rest else rest
  else e :: stack

/-- The element loop of filepath.Clean. -/
def cleanElems (rooted : Bool) : List (List Char) → List (List Char) → List (List Char)
  | stack, [] => stack
  | stack, e :: es => cleanElems rooted (cleanStep rooted stack e) es

/-- The buffer filepath.Clean returns, from the element stack. -/
def renderPath (rooted : Bool) (stack : List (List Char)) : List Char :=
  if rooted then '/' :: joinElems stack.reverse
  else if stack = [] then ['.']
  else joinElems stack.reverse

/-- Unix filepath.Clean on the characters of a path. -/
def cleanChars (path : List Char) : List Char :=
  match path with
  | [] => ['.']
  | c :: cs =>
    renderPath (decide (c = '/')) (cleanElems (decide (c = '/')) [] (splitElems (c :: cs)))

/-- Unix filepath.Clean. -/
def Clean (path : String) : String := String.mk (cleanChars path.data)

/-- Unix filepath.Join: empty leading elements are skipped, the rest is joined and cleaned. -/
def Join (elem : List String) : String :=
  match elem.dropWhile (fun e => decide (e = "")) with
  | [] => ""
  | e :: es => Clean (String.mk (joinElems ((e :: es).map String.data)))

/-- Unix filepath.IsAbs. -/
def IsAbs (path : String) : Bool := decide (path.data.head? = some '/')

/-- Unix filepath.Abs; getwd is the answer of os.Getwd. -/
def Abs (getwd : String × Option String) (path : String) : String × Option String :=
  if IsAbs path then (Clean path, none)
  else
    match getwd with
    | (_, some err) => ("", some err)
    | (wd, none) => (Join [wd, path], none)

/-- RestoredFilePath of main.go. -/
def RestoredFilePath (getwd : String × Option String) (restoreBasePath archivePath : String) :
    String × Option String :=
  Abs getwd (Join [restoreBasePath, archivePath])

/-- Unix filepath.Dir: the path up to its last separator, cleaned. -/
def Dir (path : String) : String :=
  Clean (String.mk (path.data.reverse.dropWhile (fun c => decide (c ≠ '/'))).reverse)

/-- Whether the characters of pre open the string s (strings.HasPrefix). -/
def HasPrefix (s pre : String) : Bool := pre.data.isPrefixOf s.data

/-- Whether the `..` elements of a path stay inside the directory the path is joined to:
d counts the elements written so far, and a `..` needs one of them to remove. -/
def staysInside : Nat → List (List Char) → Bool
  | _, [] => true
  | d, e :: es =>
    if e = [] then staysInside d es
    else if e = ['.'] then staysInside d es
    else if e = ['.', '.'] then
      match d with
      | 0 => false
      | d1 + 1 => staysInside d1 es
    else staysInside (d + 1) es

/-- An element that filepath.Clean writes as it is: not empty, not `.`, not `..`, and
without a separator. -/
def isNameElem (e : List Char) : Prop :=
  e ≠ [] ∧ e ≠ ['.'] ∧ e ≠ ['.', '.'] ∧ '/' ∉ e

/-! ## File system and environment

The calls of the Go library on the file system (os.Stat, os.MkdirAll, ioutil.WriteFile) are
written out over a file system of regular files and directories named by their cleaned
absolute paths. An error that this structure does not explain (a permission, a loop of
links) is an answer the file system or the environment gives per path.
-/

/-- The error of os.Stat, as far as the program tells errors apart: os.ErrNotExist, or any
other error (ENOTDIR, EACCES, ...). -/
inductive StatError where
  | notExist
  | other (err : String)
deriving DecidableEq

/-- The file system: its regular files, its directories, and for each path the error other
than not-exist that os.Stat answers there whatever the files are (none: no such error). -/
structure FileSystem where
  files : List String
  dirs : List String
  statErr : String → Option String

/-- A directory with the directories above it, nearest first. -/
def dirChain : Nat → String → List String
  | 0, dir => [dir]
  | n + 1, dir => if Dir dir = dir then [dir] else dir :: dirChain n (Dir dir)

/-- The directories above a path, nearest first. -/
def ancestors (path : String) : List String :=
  if Dir path = path then [] else dirChain (Dir path).length (Dir path)

/-- The error of `os.Stat(name)`, none when it succeeds: the empty name does not exist; a
name below a regular file is ENOTDIR; a file or a directory is found; any other name does
not exist. -/
def Stat (fs : FileSystem) (name : String) : Option StatError :=
  if name = "" then some StatError.notExist
  else
    match fs.statErr name with
    | some err => some (StatError.other err)
    | none =>
      if (ancestors name).any (fun a => decide (a ∈ fs.files)) then
        some (StatError.other "not a directory")
      else if name ∈ fs.files ∨ name ∈ fs.dirs then none
      else some StatError.notExist

/-- The test `errors.Is(err, os.ErrNotExist)` on the error of `os.Stat(name)`. -/
def statNotExist (fs : FileSystem) (name : String) : Bool :=
  decide (Stat fs name = some StatError.notExist)

/-- What the process finds around it: the answer of os.Getwd, and for each path an error
of os.MkdirAll and of ioutil.WriteFile that the file system does not explain (none: no
such error). -/
structure Env where
  Getwd : String × Option String
  MkdirAllErr : String → Option String
  WriteFileErr : String → Option String

/-- The effect and error of `os.MkdirAll(path, 0755)`: it fails on the empty path and
when the path or a directory above it is a regular file, and otherwise makes the
directories that are missing. -/
def MkdirAll (env : Env) (fs : FileSystem) (path : String) : FileSystem × Option String :=
  match env.MkdirAllErr path with
  | some err => (fs, some err)
  | none =>
    if path = "" then (fs, some "no such file or directory")
    else if (path :: ancestors path).any (fun a => decide (a ∈ fs.files)) then
      (fs, some "not a directory")
    else
      ({ fs with dirs := (path :: ancestors path).filter (fun a => decide (a ∉ fs.dirs))
                          ++ fs.dirs }, none)

/-- The effect and error of `ioutil.WriteFile(name, content, 0644)`: it fails on a
directory and where the directory of the name is missing, and otherwise leaves a regular
file at the name. -/
def WriteFile (env : Env) (fs : FileSystem) (name : String) (content : List UInt8) :
    FileSystem × Option String :=
  match env.WriteFileErr name with
  | some err => (fs, some err)
  | none =>
    if name ∈ fs.dirs then (fs, some "is a directory")
    else if Dir name ∉ fs.dirs then (fs, some "no such file or directory")
    else if name ∈ fs.files then (fs, none)
    else ({ fs with files := name :: fs.files }, none)

/-- WriteDataFile of main.go: the parent directories are made, then the file is written. -/
def WriteDataFile (env : Env) (fs : FileSystem) (realPath : String) (content : List UInt8) :
    FileSystem × Option String :=
  match MkdirAll env fs (Dir realPath) with
  | (fs1, some err) => (fs1, some err)
  | (fs1, none) => WriteFile env fs1 realPath content

/-! ## Inventory (inventory.go) -/

/-- Archive of inventory.go. -/
structure Archive where
  ArchiveId : String
  ArchiveDescription : String
  Size : Int
  CreationDate : String
  SHA256TreeHash : String
  Path : String
  RestoreJobId : String
deriving DecidableEq

/-- SerializedArchiveDescription of inventory.go. -/
structure SerializedArchiveDescription where
  Path : String
deriving DecidableEq

/-- Inventory of inventory.go. -/
structure Inventory where
  VaultARN : String
  InventoryDate : String
  ArchiveList : List Archive
deriving DecidableEq

/-- The decoder `json.Unmarshal([]byte(s), &desc)` on a zero desc: the value it leaves in
desc, and its error. -/
abbrev Unmarshal := String → SerializedArchiveDescription × Option String

/-- Archive.Process of inventory.go: Path is assigned whatever the decoder left, and the
error of the decoder is returned. -/
def Archive.Process (unmarshal : Unmarshal) (a : Archive) : Archive × Option String :=
  ({ a with Path := (unmarshal a.ArchiveDescription).1.Path },
    (unmarshal a.ArchiveDescription).2)

/-- The loop of Inventory.Process over the archive list. -/
def processArchives (unmarshal : Unmarshal) : List Archive → List Archive × Option String
  | [] => ([], none)
  | a :: rest =>
    match (Archive.Process unmarshal a).2 with
    | some err => ((Archive.Process unmarshal a).1 :: rest, some err)
    | none =>
      ((Archive.Process unmarshal a).1 :: (processArchives unmarshal rest).1,
        (processArchives unmarshal rest).2)

/-- Inventory.Process of inventory.go. -/
def Inventory.Process (unmarshal : Unmarshal) (i : Inventory) : Inventory × Option String :=
  ({ i with ArchiveList := (processArchives unmarshal i.ArchiveList).1 },
    (processArchives unmarshal i.ArchiveList).2)

/-- An archive with Path set as a successful Archive.Process sets it. -/
def withParsedPath (unmarshal : Unmarshal) (a : Archive) : Archive :=
  { a with Path := (unmarshal a.ArchiveDescription).1.Path }

/-! ## The remote service and job initiation (glacier_api.go) -/

/-- The glacier.JobParameters fields set by InitiateRestoreJob. -/
structure JobParameters where
  Type_ : String
  ArchiveId : String
  Description : String
  Tier : String
deriving DecidableEq

/-- The glacier.InitiateJobInput built by InitiateRestoreJob. -/
structure InitiateJobInput where
  AccountId : String
  VaultName : String
  JobParameters : JobParameters
deriving DecidableEq

/-- The glacier.InitiateJobOutput field that InitiateRestoreJob reads. -/
structure InitiateJobOutput where
  JobId : Option String
deriving DecidableEq

/-- The call of glacieriface.GlacierAPI that job initiation makes: the answer of the
remote service to a request is a response pointer and an error. -/
structure GlacierService where
  InitiateJob : InitiateJobInput → Option InitiateJobOutput × Option String

/-- GlacierApi of glacier_api.go. -/
structure GlacierApi where
  AccountId : String
  VaultName : String
  RestoreTier : String
  Service : GlacierService

/-- A call of InitiateRestoreJob as the outside sees it: the requests it sent to the
remote service, and what it returned (a job id and an error) or the panic it ended in. -/
structure InitiateCall where
  sent : List InitiateJobInput
  result : Except Panic (String × Option String)

/-- A call of Service.InitiateJob: the request as the remote service receives it, and the
answer of the service. -/
def GlacierService.call (svc : GlacierService) (input : InitiateJobInput) :
    List InitiateJobInput × (Option InitiateJobOutput × Option String) :=
  ([input], svc.InitiateJob input)

/-- GlacierApi.InitiateRestoreJob of glacier_api.go: one InitiateJob request of type
archive-retrieval with the archive id, the archive path as description and the tier of the
api; the job id of the response is returned when there is a response and no error. -/
def GlacierApi.InitiateRestoreJob (api : GlacierApi) (archive : Archive) : InitiateCall :=
  match api.Service.call ⟨api.AccountId, api.VaultName,
      ⟨"archive-retrieval", archive.ArchiveId, archive.Path, api.RestoreTier⟩⟩ with
  | (sent, (some res, none)) =>
    match res.JobId with
    | some jobId => ⟨sent, .ok (jobId, none)⟩
    | none => ⟨sent, .error Panic.nilDeref⟩
  | (sent, (_, err)) => ⟨sent, .ok ("", err)⟩

/-! ## Restore orchestration (main.go) -/

/-- The RestoreInitiator interface. -/
structure RestoreInitiator where
  InitiateRestoreJob : Archive → InitiateCall

/-- GlacierApi as a RestoreInitiator. -/
def GlacierApi.toRestoreInitiator (api : GlacierApi) : RestoreInitiator :=
  ⟨api.InitiateRestoreJob⟩

/-- The JobOutputer interface. -/
structure JobOutputer where
  GetJobOutput : String → Except Panic (String × List UInt8 × Option String)

/-- What an initiation pass did: the archives it passed to InitiateRestoreJob, in order,
the requests those calls sent to the remote service, and the panic that ended the pass, if
any. -/
structure InitiationRun where
  requested : List Archive
  sent : List InitiateJobInput
  panic : Option Panic
deriving DecidableEq

/-- One turn of the loop of RestoreFromInventory (main.go 162-180). The log line for an
indexed archive evaluates *existingJob.StatusCode and *existingJob.CreationDate; the
archive is skipped unless the error of os.Stat is os.ErrNotExist. -/
def restoreArchive (api : RestoreInitiator) (env : Env) (fs : FileSystem)
    (restoreBasePath : String) (existingJobsMap : JobMap) (archive : Archive) :
    InitiationRun :=
  match existingJobsMap archive.ArchiveId with
  | some existingJob =>
    match existingJob.StatusCode, existingJob.CreationDate with
    | some _, some _ => ⟨[], [], none⟩
    | _, _ => ⟨[], [], some Panic.nilDeref⟩
  | none =>
    match RestoredFilePath env.Getwd restoreBasePath archive.Path with
    | (_, some err) => ⟨[], [], some (Panic.raised err)⟩
    | (filePath, none) =>
      if statNotExist fs filePath then
        match (api.InitiateRestoreJob archive).result with
        | .error p => ⟨[archive], (api.InitiateRestoreJob archive).sent, some p⟩
        | .ok (_, some err) =>
          ⟨[archive], (api.InitiateRestoreJob archive).sent, some (Panic.raised err)⟩
        | .ok (_, none) => ⟨[archive], (api.InitiateRestoreJob archive).sent, none⟩
      else ⟨[], [], none⟩

/-- The loop of RestoreFromInventory over the archive list. -/
def restoreArchives (api : RestoreInitiator) (env : Env) (fs : FileSystem)
    (restoreBasePath : String) (existingJobsMap : JobMap) : List Archive → InitiationRun
  | [] => ⟨[], [], none⟩
  | archive :: rest =>
    match (restoreArchive api env fs restoreBasePath existingJobsMap archive).panic with
    | some p =>
      ⟨(restoreArchive api env fs restoreBasePath existingJobsMap archive).requested,
        (restoreArchive api env fs restoreBasePath existingJobsMap archive).sent, some p⟩
    | none =>
      ⟨(restoreArchive api env fs restoreBasePath existingJobsMap archive).requested ++
          (restoreArchives api env fs restoreBasePath existingJobsMap rest).requested,
        (restoreArchive api env fs restoreBasePath existingJobsMap archive).sent ++
          (restoreArchives api env fs restoreBasePath existingJobsMap rest).sent,
        (restoreArchives api env fs restoreBasePath existingJobsMap rest).panic⟩

/-- RestoreFromInventory of main.go. The map it is given is only read, and the file
system is only read. -/
def RestoreFromInventory (api : RestoreInitiator) (env : Env) (fs : FileSystem)
    (inventory : Inventory) (restoreBasePath : String) (existingJobsMap : JobMap) :
    InitiationRun :=
  restoreArchives api env fs restoreBasePath existingJobsMap inventory.ArchiveList

/-- Whether an archive is not a key of the index and os.Stat answers os.ErrNotExist at its
restore path. -/
def needsJob (env : Env) (fs : FileSystem) (restoreBasePath : String) (existingJobsMap : JobMap)
    (archive : Archive) : Bool :=
  (existingJobsMap archive.ArchiveId).isNone &&
    statNotExist fs (RestoredFilePath env.Getwd restoreBasePath archive.Path).1

/-- Whether a file or a directory exists at a path; nothing exists at the empty path. -/
def existsAt (fs : FileSystem) (path : String) : Bool :=
  decide (path ≠ "" ∧ (path ∈ fs.files ∨ path ∈ fs.dirs))

/-- Whether an archive is not a key of the index and no file exists at its restore
path. -/
def unrestored (env : Env) (fs : FileSystem) (restoreBasePath : String) (existingJobsMap : JobMap)
    (archive : Archive) : Bool :=
  (existingJobsMap archive.ArchiveId).isNone &&
    !existsAt fs (RestoredFilePath env.Getwd restoreBasePath archive.Path).1

/-- One file system holds what another holds: its files, its directories, and the same
os.Stat errors. -/
def FileSystem.extends_ (fs1 fs : FileSystem) : Prop :=
  (∀ p ∈ fs.files, p ∈ fs1.files) ∧ (∀ p ∈ fs.dirs, p ∈ fs1.dirs) ∧ fs1.statErr = fs.statErr

/-- The state a download pass works on: the file system, the job ids passed to
GetJobOutput so far and the paths passed to WriteDataFile so far, oldest first. -/
structure World where
  fs : FileSystem
  fetched : List String
  written : List String

/-- RestoreDataFromCompletedJob of main.go. The error of RestoredFilePath is overwritten
by the error of os.Stat; the job is skipped unless that error is os.ErrNotExist; the log
line before the write evaluates *job.ArchiveSizeInBytes. -/
def RestoreDataFromCompletedJob (api : JobOutputer) (env : Env) (restoreBasePath : String)
    (job : JobDescription) (w : World) : Except Panic (World × Option String) :=
  match job.JobDescription with
  | none => .ok (w, none)
  | some description =>
    if statNotExist w.fs (RestoredFilePath env.Getwd restoreBasePath description).1 then
      match job.JobId with
      | none => .error Panic.nilDeref
      | some jobId =>
        match api.GetJobOutput jobId with
        | .error p => .error p
        | .ok (_, _, some err) => .ok ({ w with fetched := w.fetched ++ [jobId] }, some err)
        | .ok (_, content, none) =>
          if (RestoredFilePath env.Getwd restoreBasePath description).1 ≠ "" then
            match job.ArchiveSizeInBytes with
            | none => .error Panic.nilDeref
            | some _ =>
              .ok ({ fs := (WriteDataFile env w.fs
                        (RestoredFilePath env.Getwd restoreBasePath description).1 content).1
                     fetched := w.fetched ++ [jobId]
                     written := w.written ++
                        [(RestoredFilePath env.Getwd restoreBasePath description).1] },
                (WriteDataFile env w.fs
                  (RestoredFilePath env.Getwd restoreBasePath description).1 content).2)
          else .ok ({ w with fetched := w.fetched ++ [jobId] }, none)
    else .ok (w, none)

/-- The download loop of main (main.go 98-106): a job that is no archive retrieval is
passed over, an error of RestoreDataFromCompletedJob is a panic. -/
def downloadPass (api : JobOutputer) (env : Env) (restoreBasePath : String) :
    List JobDescription → World → Except Panic World
  | [], w => .ok w
  | job :: rest, w =>
    match job.Action with
    | none => .error Panic.nilDeref
    | some action =>
      if action ≠ "ArchiveRetrieval" then downloadPass api env restoreBasePath rest w
      else
        match RestoreDataFromCompletedJob api env restoreBasePath job w with
        | .error p => .error p
        | .ok (_, some err) => .error (Panic.raised err)
        | .ok (w1, none) => downloadPass api env restoreBasePath rest w1

/-! ## Values used in the examples -/

/-- A job with the given action, archive id and job id, and no other field. -/
def mkJob (action archiveId jobId : Option String) : JobDescription :=
  ⟨action, archiveId, jobId, none, none, none, none⟩

/-- A fetcher whose queries answer the same whatever the max count. -/
def constFetcher (succeeded failed inProgress : JobSlice × Option String) : JobFetcher :=
  ⟨fun _ => succeeded, fun _ => failed, fun _ => inProgress⟩

/-- An api whose service accepts every job request with the job id "J1". -/
def testApi : GlacierApi := ⟨"acct", "vault", "Bulk", ⟨fun _ => (some ⟨some "J1"⟩, none)⟩⟩

/-- A JobOutputer that answers every job id with three bytes and no error. -/
def testOutputer : JobOutputer := ⟨fun _ => .ok ("", [1, 2, 3], none)⟩

/-- An environment in which the working directory is wd and no call fails for a reason
outside the file system. -/
def envAt (wd : String) : Env := ⟨(wd, none), fun _ => none, fun _ => none⟩

/-- An environment in which os.Getwd fails. -/
def envNoWd : Env := ⟨("", some "getwd: no such file or directory"), fun _ => none, fun _ => none⟩

/-- A file system with the given files and directories and no other os.Stat error. -/
def fsOf (files dirs : List String) : FileSystem := ⟨files, dirs, fun _ => none⟩

/-- The archive A1 of the end-to-end example, after Inventory.Process. -/
def archiveA1 : Archive :=
  ⟨"A1", "\x7b\"path\":\"docs/readme.txt\"\x7d", 0, "", "", "docs/readme.txt", ""⟩

/-- An archive with the given id and path. -/
def archiveAt (archiveId path : String) : Archive :=
  ⟨archiveId, "", 0, "", "", path, ""⟩

/-- A succeeded retrieval job "j1" whose description is the path a.txt. -/
def doneJob : JobDescription :=
  ⟨some "ArchiveRetrieval", some "A1", some "j1", some "a.txt", some "Succeeded", some "2020", some 3⟩

/-- A decoder that accepts the description of the end-to-end example and nothing else. -/
def exampleUnmarshal : Unmarshal := fun s =>
  if s = "\x7b\"path\":\"docs/readme.txt\"\x7d" then (⟨"docs/readme.txt"⟩, none)
  else (⟨""⟩, some "invalid character")

/-- An archive with the given id and description and an unset Path. -/
def rawArchive (archiveId description : String) : Archive :=
  ⟨archiveId, description, 0, "", "", "", ""⟩

end GlacierRestore

namespace GlacierRestore


theorem lastRetrieval_cons (j : JobDescription) (rest : List JobDescription) (k : String) :
    lastRetrieval (j :: rest) k =
      if retrievesArchive k j = true then some ((lastRetrieval rest k).getD j)
      else lastRetrieval rest k := by
  unfold lastRetrieval
  by_cases h : retrievesArchive k j = true
  · simp [List.filter_cons, h, List.getLast?_cons]
  · simp [List.filter_cons, h]

theorem lastRetrieval_some {jobs : List JobDescription} {k : String} {j : JobDescription}
    (h : lastRetrieval jobs k = some j) :
    j ∈ jobs ∧ j.Action = some "ArchiveRetrieval" ∧ j.ArchiveId = some k := by
  unfold lastRetrieval at h
  have hm : j ∈ jobs.filter (retrievesArchive k) := List.mem_of_getLast?_eq_some h
  rw [List.mem_filter] at hm
  obtain ⟨h1, h2⟩ := hm
  simp only [retrievesArchive, decide_eq_true_eq] at h2
  exact ⟨h1, h2.1, h2.2⟩

theorem lastRetrieval_isSome {jobs : List JobDescription} {k : String} {j : JobDescription}
    (hj : j ∈ jobs) (ha : j.Action = some "ArchiveRetrieval") (hk : j.ArchiveId = some k) :
    lastRetrieval jobs k ≠ none := by
  unfold lastRetrieval
  have hm : j ∈ jobs.filter (retrievesArchive k) := by
    rw [List.mem_filter]
    exact ⟨hj, by simp [retrievesArchive, ha, hk]⟩
  intro h
  rw [List.getLast?_eq_none_iff] at h
  rw [h] at hm
  exact List.not_mem_nil _ hm

/-- The index loop succeeds on well-formed jobs, and its map holds for each archive the
last retrieval job of the list, or what the map held before. -/
theorem buildIndex_ok (jobs : List JobDescription) :
    ∀ m : JobMap,
      (∀ j ∈ jobs, j.Action ≠ none) →
      (∀ j ∈ jobs, j.Action = some "ArchiveRetrieval" → j.ArchiveId ≠ none ∧ j.JobId ≠ none) →
      (∀ k j, m k = some j → j.JobId ≠ none) →
      ∃ m1 : JobMap, buildIndex jobs m = .ok m1 ∧
        ∀ k, m1 k = (match lastRetrieval jobs k with
                     | some j => some j
                     | none => m k) := by
  induction jobs with
  | nil =>
    intro m _ _ _
    exact ⟨m, rfl, fun k => rfl⟩
  | cons job rest ih =>
    intro m hact hret hm
    have hact1 := hact job (List.mem_cons_self _ _)
    have hret1 := hret job (List.mem_cons_self _ _)
    have hactR : ∀ j ∈ rest, j.Action ≠ none := fun j hj => hact j (List.mem_cons_of_mem _ hj)
    have hretR : ∀ j ∈ rest, j.Action = some "ArchiveRetrieval" →
        j.ArchiveId ≠ none ∧ j.JobId ≠ none := fun j hj => hret j (List.mem_cons_of_mem _ hj)
    obtain ⟨action, hA⟩ := Option.ne_none_iff_exists'.mp hact1
    by_cases hAR : action = "ArchiveRetrieval"
    · subst hAR
      obtain ⟨hid, hjid⟩ := hret1 hA
      obtain ⟨archiveId, hI⟩ := Option.ne_none_iff_exists'.mp hid
      have hstep : indexJob m job = .ok (m.insert archiveId job) := by
        unfold indexJob
        rw [hA, hI]
        simp only [ne_eq, not_true_eq_false, if_false]
        cases hmk : m archiveId with
        | none => rfl
        | some existingJob =>
          obtain ⟨jid, hJ⟩ := Option.ne_none_iff_exists'.mp (hm _ _ hmk)
          simp [hJ]
      have hm1 : ∀ k j, (m.insert archiveId job) k = some j → j.JobId ≠ none := by
        intro k j hkj
        unfold JobMap.insert at hkj
        by_cases hk : k = archiveId
        · simp [hk] at hkj
          subst hkj
          exact hjid
        · simp [hk] at hkj
          exact hm _ _ hkj
      obtain ⟨m1, hb, hchar⟩ := ih (m.insert archiveId job) hactR hretR hm1
      refine ⟨m1, ?_, ?_⟩
      · simp [buildIndex, hstep, hb]
      · intro k
        rw [hchar k, lastRetrieval_cons]
        by_cases hk : k = archiveId
        · subst hk
          have hr : retrievesArchive k job = true := by simp [retrievesArchive, hA, hI]
          simp only [hr, if_true]
          cases lastRetrieval rest k with
          | none => simp [JobMap.insert]
          | some j => simp
        · have hr : ¬ retrievesArchive k job = true := by
            simp [retrievesArchive, hA, hI]
            exact fun h => hk h.symm
          simp only [hr, if_false]
          cases lastRetrieval rest k with
          | none => simp [JobMap.insert, hk]
          | some j => simp
    · have hstep : indexJob m job = .ok m := by
        unfold indexJob
        rw [hA]
        simp [hAR]
      obtain ⟨m1, hb, hchar⟩ := ih m hactR hretR hm
      refine ⟨m1, ?_, ?_⟩
      · simp [buildIndex, hstep, hb]
      · intro k
        rw [hchar k, lastRetrieval_cons]
        have hr : ¬ retrievesArchive k job = true := by
          simp [retrievesArchive, hA]
          intro h
          exact absurd h hAR
        simp [hr]


theorem fetchJobs_of_queries (gapi : JobFetcher) (maxJobCount : Int)
    (succeeded inProgress : JobSlice)
    (hs : gapi.SuccessfulJobs maxJobCount = (succeeded, none))
    (hp : gapi.InProgressJobs maxJobCount = (inProgress, none)) :
    FetchJobs gapi maxJobCount =
      match buildIndex (inProgress.elems ++ succeeded.elems) JobMap.empty with
      | .error p => .error p
      | .ok existingJobsMap => .ok ⟨succeeded, some existingJobsMap, none⟩ := by
  unfold FetchJobs
  simp only [hs, hp]

/-- C1 as stated fails: every job has an action and an archive identity, yet the duplicate
warning dereferences the job id of the earlier job, which is nil here, and FetchJobs panics
instead of returning an index. -/
theorem fetchJobs_duplicate_nil_job_id_panics :
    (∀ j ∈ [mkJob (some "ArchiveRetrieval") (some "A1") none,
            mkJob (some "ArchiveRetrieval") (some "A1") (some "j2")],
        j.Action ≠ none ∧ j.ArchiveId ≠ none) ∧
    FetchJobs (constFetcher (some [], none) (some [], none)
        (some [mkJob (some "ArchiveRetrieval") (some "A1") none,
               mkJob (some "ArchiveRetrieval") (some "A1") (some "j2")], none)) 0
      = .error Panic.nilDeref := by
  constructor
  · decide
  · rfl

/-- C1 (amended): when the three queries succeed and every job of the in-progress and
succeeded lists has an action, an archive identity and a job id, FetchJobs returns the
succeeded list, a nil error and an index that maps each archive identity to the last job of
(in-progress ++ succeeded) that is an ArchiveRetrieval for it; its keys are exactly the
archive identities of the ArchiveRetrieval jobs of that list, a job of another action is
never indexed, and the failed-jobs list plays no part. -/
theorem fetchJobs_index_last_retrieval (gapi : JobFetcher) (maxJobCount : Int)
    (failed succeeded inProgress : JobSlice)
    (hf : gapi.FailedJobs maxJobCount = (failed, none))
    (hs : gapi.SuccessfulJobs maxJobCount = (succeeded, none))
    (hp : gapi.InProgressJobs maxJobCount = (inProgress, none))
    (hwf : ∀ j ∈ inProgress.elems ++ succeeded.elems,
      j.Action ≠ none ∧ j.ArchiveId ≠ none ∧ j.JobId ≠ none) :
    ∃ m : JobMap, FetchJobs gapi maxJobCount = .ok ⟨succeeded, some m, none⟩ ∧
      (∀ k, m k = lastRetrieval (inProgress.elems ++ succeeded.elems) k) ∧
      (∀ k, m k ≠ none ↔ ∃ j ∈ inProgress.elems ++ succeeded.elems,
        j.Action = some "ArchiveRetrieval" ∧ j.ArchiveId = some k) ∧
      (∀ k j, m k = some j → j.Action = some "ArchiveRetrieval" ∧ j.ArchiveId = some k) := by
  obtain ⟨m, hb, hchar⟩ := buildIndex_ok (inProgress.elems ++ succeeded.elems) JobMap.empty
    (fun j hj => (hwf j hj).1) (fun j hj _ => ⟨(hwf j hj).2.1, (hwf j hj).2.2⟩)
    (fun k j h => by simp [JobMap.empty] at h)
  have hlast : ∀ k, m k = lastRetrieval (inProgress.elems ++ succeeded.elems) k := by
    intro k
    rw [hchar k]
    cases lastRetrieval (inProgress.elems ++ succeeded.elems) k <;> rfl
  refine ⟨m, ?_, hlast, ?_, ?_⟩
  · rw [fetchJobs_of_queries gapi maxJobCount succeeded inProgress hs hp, hb]
  · intro k
    constructor
    · intro hne
      obtain ⟨j, hj⟩ := Option.ne_none_iff_exists'.mp hne
      rw [hlast k] at hj
      exact ⟨j, (lastRetrieval_some hj).1, (lastRetrieval_some hj).2.1, (lastRetrieval_some hj).2.2⟩
    · rintro ⟨j, hj, ha, hk⟩
      rw [hlast k]
      exact lastRetrieval_isSome hj ha hk
  · intro k j hkj
    rw [hlast k] at hkj
    exact (lastRetrieval_some hkj).2

/-- The index of a fetcher with two retrieval jobs for A1, one job of another action and a
failed job: A1 maps to the later job, nothing else is indexed. -/
theorem fetchJobs_index_last_retrieval_witness :
    ∃ m : JobMap,
      FetchJobs (constFetcher
          (some [mkJob (some "ArchiveRetrieval") (some "A1") (some "j2")], none)
          (some [mkJob (some "ArchiveRetrieval") (some "A9") (some "j0")], none)
          (some [mkJob (some "ArchiveRetrieval") (some "A1") (some "j1"),
                 mkJob (some "InventoryRetrieval") (some "A2") (some "j3")], none)) 7
        = .ok ⟨some [mkJob (some "ArchiveRetrieval") (some "A1") (some "j2")], some m, none⟩ ∧
      m "A1" = some (mkJob (some "ArchiveRetrieval") (some "A1") (some "j2")) ∧
      m "A2" = none ∧ m "A9" = none := by
  obtain ⟨m, h1, h2, _, _⟩ := fetchJobs_index_last_retrieval
    (constFetcher
      (some [mkJob (some "ArchiveRetrieval") (some "A1") (some "j2")], none)
      (some [mkJob (some "ArchiveRetrieval") (some "A9") (some "j0")], none)
      (some [mkJob (some "ArchiveRetrieval") (some "A1") (some "j1"),
             mkJob (some "InventoryRetrieval") (some "A2") (some "j3")], none)) 7
    (some [mkJob (some "ArchiveRetrieval") (some "A9") (some "j0")])
    (some [mkJob (some "ArchiveRetrieval") (some "A1") (some "j2")])
    (some [mkJob (some "ArchiveRetrieval") (some "A1") (some "j1"),
           mkJob (some "InventoryRetrieval") (some "A2") (some "j3")])
    rfl rfl rfl (by decide)
  refine ⟨m, h1, ?_, ?_, ?_⟩
  · rw [h2]; decide
  · rw [h2]; decide
  · rw [h2]; decide

/-- C2: if the succeeded-jobs query returns an error, or it succeeds and the in-progress-jobs
query returns an error, FetchJobs returns a nil succeeded list, a nil index and exactly that
error, whatever the failed-jobs query returned. -/
theorem fetchJobs_fails_hard (gapi : JobFetcher) (maxJobCount : Int) (err : String)
    (h : (gapi.SuccessfulJobs maxJobCount).2 = some err ∨
      ((gapi.SuccessfulJobs maxJobCount).2 = none ∧
        (gapi.InProgressJobs maxJobCount).2 = some err)) :
    FetchJobs gapi maxJobCount = .ok ⟨none, none, some err⟩ := by
  unfold FetchJobs
  rcases hsq : gapi.SuccessfulJobs maxJobCount with ⟨s, se⟩
  rcases hpq : gapi.InProgressJobs maxJobCount with ⟨p, pe⟩
  rw [hsq, hpq] at h
  rcases h with h | ⟨h1, h2⟩
  · simp only at h
    subst h
    rfl
  · simp only at h1 h2
    subst h1
    subst h2
    rfl

/-- A fetcher whose succeeded-jobs query fails, and one whose in-progress-jobs query fails. -/
theorem fetchJobs_fails_hard_witness :
    FetchJobs (constFetcher (some [mkJob none none none], some "throttled")
        (none, some "failed listing down") (some [], none)) 3
      = .ok ⟨none, none, some "throttled"⟩ ∧
    FetchJobs (constFetcher (some [mkJob none none none], none)
        (some [], none) (some [mkJob none none none], some "timeout")) 3
      = .ok ⟨none, none, some "timeout"⟩ :=
  ⟨fetchJobs_fails_hard _ 3 "throttled" (Or.inl rfl),
   fetchJobs_fails_hard _ 3 "timeout" (Or.inr ⟨rfl, rfl⟩)⟩

/-- The index FetchJobs builds from well-formed lists: every job has an action, and every
ArchiveRetrieval job has an archive identity and a job id. -/
theorem fetchJobs_ok_of_wellformed (gapi : JobFetcher) (maxJobCount : Int)
    (succeeded inProgress : JobSlice)
    (hs : gapi.SuccessfulJobs maxJobCount = (succeeded, none))
    (hp : gapi.InProgressJobs maxJobCount = (inProgress, none))
    (hact : ∀ j ∈ inProgress.elems ++ succeeded.elems, j.Action ≠ none)
    (hret : ∀ j ∈ inProgress.elems ++ succeeded.elems,
      j.Action = some "ArchiveRetrieval" → j.ArchiveId ≠ none ∧ j.JobId ≠ none) :
    ∃ m : JobMap, FetchJobs gapi maxJobCount = .ok ⟨succeeded, some m, none⟩ ∧
      ∀ k, m k = lastRetrieval (inProgress.elems ++ succeeded.elems) k := by
  obtain ⟨m, hb, hchar⟩ := buildIndex_ok (inProgress.elems ++ succeeded.elems) JobMap.empty
    hact hret (fun k j h => by simp [JobMap.empty] at h)
  refine ⟨m, ?_, ?_⟩
  · rw [fetchJobs_of_queries gapi maxJobCount succeeded inProgress hs hp, hb]
  · intro k
    rw [hchar k]
    cases lastRetrieval (inProgress.elems ++ succeeded.elems) k <;> rfl

/-- C3 as stated fails: the failed-jobs query errs and the other two queries succeed, but
FetchJobs panics instead of returning a nil error and an index when an in-progress job has
no action, when an ArchiveRetrieval job has no archive identity, and when the earlier of two
retrieval jobs for one archive has no job id. -/
theorem fetchJobs_nil_action_panics :
    FetchJobs (constFetcher (some [], none) (none, some "failed listing down")
        (some [mkJob none none none], none)) 0
      = .error Panic.nilDeref ∧
    FetchJobs (constFetcher (some [mkJob (some "ArchiveRetrieval") none (some "j5")], none)
        (none, some "failed listing down") (some [], none)) 0
      = .error Panic.nilDeref ∧
    FetchJobs (constFetcher (some [mkJob (some "ArchiveRetrieval") (some "A3") (some "j7")], none)
        (none, some "failed listing down")
        (some [mkJob (some "ArchiveRetrieval") (some "A3") none], none)) 0
      = .error Panic.nilDeref :=
  ⟨rfl, rfl, rfl⟩

/-- C3 (amended): when the failed-jobs query returns an error while the succeeded-jobs and
in-progress-jobs queries succeed with lists in which every job has an action and every
ArchiveRetrieval job has an archive identity and a job id, FetchJobs returns a nil error, a
non-nil index and the succeeded list, and these are the list and the index it returns when
the failed-jobs query succeeds (with any job list) and the other two queries return the
same results. -/
theorem fetchJobs_fails_soft (gapi : JobFetcher) (maxJobCount : Int)
    (failed succeeded inProgress : JobSlice) (err : String)
    (hf : gapi.FailedJobs maxJobCount = (failed, some err))
    (hs : gapi.SuccessfulJobs maxJobCount = (succeeded, none))
    (hp : gapi.InProgressJobs maxJobCount = (inProgress, none))
    (hact : ∀ j ∈ inProgress.elems ++ succeeded.elems, j.Action ≠ none)
    (hret : ∀ j ∈ inProgress.elems ++ succeeded.elems,
      j.Action = some "ArchiveRetrieval" → j.ArchiveId ≠ none ∧ j.JobId ≠ none) :
    ∃ m : JobMap, FetchJobs gapi maxJobCount = .ok ⟨succeeded, some m, none⟩ ∧
      ∀ (gapi2 : JobFetcher) (failed2 : JobSlice),
        gapi2.FailedJobs maxJobCount = (failed2, none) →
        gapi2.SuccessfulJobs maxJobCount = (succeeded, none) →
        gapi2.InProgressJobs maxJobCount = (inProgress, none) →
        FetchJobs gapi2 maxJobCount = .ok ⟨succeeded, some m, none⟩ := by
  obtain ⟨m, hm, _⟩ := fetchJobs_ok_of_wellformed gapi maxJobCount succeeded inProgress
    hs hp hact hret
  refine ⟨m, hm, ?_⟩
  intro gapi2 failed2 _ hs2 hp2
  rw [fetchJobs_of_queries gapi2 maxJobCount succeeded inProgress hs2 hp2]
  rw [fetchJobs_of_queries gapi maxJobCount succeeded inProgress hs hp] at hm
  exact hm

/-- A fetcher whose failed-jobs query fails returns what it returns when that query
succeeds. -/
theorem fetchJobs_fails_soft_witness :
    ∃ m : JobMap,
      FetchJobs (constFetcher
          (some [mkJob (some "ArchiveRetrieval") (some "A1") (some "j1")], none)
          (none, some "failed listing down")
          (some [mkJob (some "InventoryRetrieval") none (some "j2")], none)) 4
        = .ok ⟨some [mkJob (some "ArchiveRetrieval") (some "A1") (some "j1")], some m, none⟩ ∧
      FetchJobs (constFetcher
          (some [mkJob (some "ArchiveRetrieval") (some "A1") (some "j1")], none)
          (some [mkJob (some "ArchiveRetrieval") (some "A7") (some "j7")], none)
          (some [mkJob (some "InventoryRetrieval") none (some "j2")], none)) 4
        = .ok ⟨some [mkJob (some "ArchiveRetrieval") (some "A1") (some "j1")], some m, none⟩ := by
  obtain ⟨m, h1, h2⟩ := fetchJobs_fails_soft
    (constFetcher
      (some [mkJob (some "ArchiveRetrieval") (some "A1") (some "j1")], none)
      (none, some "failed listing down")
      (some [mkJob (some "InventoryRetrieval") none (some "j2")], none)) 4
    none (some [mkJob (some "ArchiveRetrieval") (some "A1") (some "j1")])
    (some [mkJob (some "InventoryRetrieval") none (some "j2")]) "failed listing down"
    rfl rfl rfl (by decide) (by decide)
  exact ⟨m, h1, h2 _ (some [mkJob (some "ArchiveRetrieval") (some "A7") (some "j7")])
    rfl rfl rfl⟩

/-- C9 as stated fails: an ArchiveRetrieval job whose archive identity is absent is not
left out of the index; the loop dereferences the nil archive id and FetchJobs panics. It
panics as well on a job whose action is absent, and on a second retrieval job for an
archive whose first job has no job id. -/
theorem fetchJobs_nil_archive_id_panics :
    FetchJobs (constFetcher (some [], none) (some [], none)
        (some [mkJob (some "ArchiveRetrieval") none (some "j1")], none)) 0
      = .error Panic.nilDeref ∧
    FetchJobs (constFetcher (some [mkJob none (some "A1") (some "j1")], none) (some [], none)
        (some [], none)) 0
      = .error Panic.nilDeref ∧
    FetchJobs (constFetcher (some [mkJob (some "ArchiveRetrieval") (some "A1") (some "j2")], none)
        (some [], none)
        (some [mkJob (some "ArchiveRetrieval") (some "A1") none], none)) 0
      = .error Panic.nilDeref :=
  ⟨rfl, rfl, rfl⟩

/-- C9 (amended): for in-progress and succeeded lists in which every job has an action and
every ArchiveRetrieval job has an archive identity and a job id, index construction in
FetchJobs does not fail; a job whose archive identity is absent (it is then of another
action) is left out of the index, every other job is handled as usual, and every entry of
the index is an ArchiveRetrieval job of the lists, stored under its own archive identity. -/
theorem fetchJobs_indexes_only_identified_retrievals (gapi : JobFetcher) (maxJobCount : Int)
    (succeeded inProgress : JobSlice)
    (hs : gapi.SuccessfulJobs maxJobCount = (succeeded, none))
    (hp : gapi.InProgressJobs maxJobCount = (inProgress, none))
    (hact : ∀ j ∈ inProgress.elems ++ succeeded.elems, j.Action ≠ none)
    (hret : ∀ j ∈ inProgress.elems ++ succeeded.elems,
      j.Action = some "ArchiveRetrieval" → j.ArchiveId ≠ none ∧ j.JobId ≠ none) :
    ∃ m : JobMap, FetchJobs gapi maxJobCount = .ok ⟨succeeded, some m, none⟩ ∧
      (∀ j, j.ArchiveId = none → ∀ k, m k ≠ some j) ∧
      (∀ k j, m k = some j → j ∈ inProgress.elems ++ succeeded.elems ∧
        j.Action = some "ArchiveRetrieval" ∧ j.ArchiveId = some k) ∧
      (∀ k, m k = lastRetrieval (inProgress.elems ++ succeeded.elems) k) := by
  obtain ⟨m, hm, hlast⟩ := fetchJobs_ok_of_wellformed gapi maxJobCount succeeded inProgress
    hs hp hact hret
  refine ⟨m, hm, ?_, ?_, hlast⟩
  · intro j hnone k hkj
    rw [hlast k] at hkj
    have := (lastRetrieval_some hkj).2.2
    rw [hnone] at this
    cases this
  · intro k j hkj
    rw [hlast k] at hkj
    exact lastRetrieval_some hkj

/-- An inventory-retrieval job without archive identity is left out, the retrieval job for A1
is indexed. -/
theorem fetchJobs_indexes_only_identified_retrievals_witness :
    ∃ m : JobMap,
      FetchJobs (constFetcher
          (some [mkJob (some "ArchiveRetrieval") (some "A1") (some "j1")], none)
          (some [], none)
          (some [mkJob (some "InventoryRetrieval") none (some "j2")], none)) 4
        = .ok ⟨some [mkJob (some "ArchiveRetrieval") (some "A1") (some "j1")], some m, none⟩ ∧
      (∀ k, m k ≠ some (mkJob (some "InventoryRetrieval") none (some "j2"))) ∧
      m "A1" = some (mkJob (some "ArchiveRetrieval") (some "A1") (some "j1")) := by
  obtain ⟨m, h1, h2, _, h4⟩ := fetchJobs_indexes_only_identified_retrievals
    (constFetcher
      (some [mkJob (some "ArchiveRetrieval") (some "A1") (some "j1")], none)
      (some [], none)
      (some [mkJob (some "InventoryRetrieval") none (some "j2")], none)) 4
    (some [mkJob (some "ArchiveRetrieval") (some "A1") (some "j1")])
    (some [mkJob (some "InventoryRetrieval") none (some "j2")])
    rfl rfl (by decide) (by decide)
  refine ⟨m, h1, h2 _ rfl, ?_⟩
  rw [h4]; decide

theorem firstPages_zero (pages : List ListJobsOutput) : firstPages pages 0 = [] := by
  simp [firstPages]

theorem firstPages_nil (k : Nat) : firstPages [] k = [] := by
  simp [firstPages]

theorem firstPages_cons_succ (p : ListJobsOutput) (rest : List ListJobsOutput) (k : Nat) :
    firstPages (p :: rest) (k + 1) = p.JobList ++ firstPages rest k := by
  simp [firstPages]

theorem firstPages_succ_of_getElem (pages : List ListJobsOutput) (i : Nat) (p : ListJobsOutput)
    (h : pages[i]? = some p) :
    firstPages pages (i + 1) = firstPages pages i ++ p.JobList := by
  induction pages generalizing i with
  | nil => simp at h
  | cons q rest ih =>
    cases i with
    | zero =>
      simp at h
      subst h
      simp [firstPages]
    | succ n =>
      simp at h
      rw [firstPages_cons_succ, firstPages_cons_succ, ih n h, List.append_assoc]

/-- The page loop of GetJobs from an accumulated list: it returns the accumulated list
followed by the first k pages, where k is the first positive number of pages at which the
count exceeds the cap, or the number of pages. -/
theorem listJobsPages_getJobsPage (maxJobCount : Int) (err : Option String)
    (pages : List ListJobsOutput) :
    ∀ acc : List JobDescription, ∃ k, k ≤ pages.length ∧
      (ListJobsPages (getJobsPage maxJobCount) err pages acc).1 = acc ++ firstPages pages k ∧
      (pages ≠ [] → 1 ≤ k) ∧
      (∀ i, 1 ≤ i → i < k → ((acc ++ firstPages pages i).length : Int) ≤ maxJobCount) ∧
      (k = pages.length ∨ ((acc ++ firstPages pages k).length : Int) > maxJobCount) := by
  induction pages with
  | nil =>
    intro acc
    exact ⟨0, le_refl _, by simp [ListJobsPages, firstPages_zero], by simp, by
      intro i h1 h2; omega, Or.inl rfl⟩
  | cons p rest ih =>
    intro acc
    by_cases hgt : ((acc ++ p.JobList).length : Int) > maxJobCount
    · refine ⟨1, by simp, ?_, by simp, ?_, ?_⟩
      · have hstep : ∀ b, getJobsPage maxJobCount acc p b = (acc ++ p.JobList, false) := by
          intro b
          unfold getJobsPage
          exact if_pos hgt
        simp only [ListJobsPages, hstep, firstPages_cons_succ, firstPages_zero,
          List.append_nil]
      · intro i h1 h2; omega
      · right
        simpa [firstPages_cons_succ, firstPages_zero] using hgt
    · obtain ⟨k, hk, hres, _, hbelow, hstop⟩ := ih (acc ++ p.JobList)
      refine ⟨k + 1, by simpa using hk, ?_, by simp, ?_, ?_⟩
      · have hstep : ∀ b, getJobsPage maxJobCount acc p b = (acc ++ p.JobList, true) := by
          intro b
          unfold getJobsPage
          exact if_neg hgt
        simp only [ListJobsPages, hstep]
        rw [hres, firstPages_cons_succ, List.append_assoc]
      · intro i h1 h2
        obtain ⟨j, rfl⟩ : ∃ j, i = j + 1 := ⟨i - 1, by omega⟩
        rw [firstPages_cons_succ, ← List.append_assoc]
        by_cases hj : j = 0
        · subst hj
          rw [firstPages_zero, List.append_nil]
          exact not_lt.mp hgt
        · exact hbelow j (by omega) (by omega)
      · rcases hstop with h | h
        · left; simp [h]
        · right
          rw [firstPages_cons_succ, ← List.append_assoc]
          exact h

/-- C7 as stated fails for a negative max count: with max count -1 and one page of one
job, no page at all already has a count above the cap, so the least such number of pages
is 0 and the claim predicts an empty result; GetJobs returns the whole first page, which
exceeds the cap by 2, more than the size of that page. -/
theorem getJobs_negative_cap_returns_first_page :
    (GetJobs ⟨[⟨[mkJob none none none]⟩], none⟩ (-1)).1 = [mkJob none none none] ∧
    ((firstPages [⟨[mkJob none none none]⟩] 0).length : Int) > -1 ∧
    (GetJobs ⟨[⟨[mkJob none none none]⟩], none⟩ (-1)).1
      ≠ firstPages [⟨[mkJob none none none]⟩] 0 ∧
    ¬ (((GetJobs ⟨[⟨[mkJob none none none]⟩], none⟩ (-1)).1.length : Int)
      ≤ -1 + (([mkJob none none none] : List JobDescription).length : Int)) := by
  decide

/-- C7 (amended): for every list of pages and every max count that is not negative,
GetJobs returns the concatenation of the first k pages, where k is the least number of
pages whose accumulated item count is strictly greater than max count, or the number of
pages when the count never exceeds it; so no page is truncated, the first page is returned
whole, max count 0 with pages of 5 items returns 5 items, and the result exceeds max count
by at most the size of the last page taken. -/
theorem getJobs_soft_cap (listing : Listing) (maxJobCount : Int) (hmax : 0 ≤ maxJobCount) :
    ∃ k, k ≤ listing.pages.length ∧
      (GetJobs listing maxJobCount).1 = firstPages listing.pages k ∧
      (∀ i, i < k → ((firstPages listing.pages i).length : Int) ≤ maxJobCount) ∧
      (k = listing.pages.length ∨
        ((firstPages listing.pages k).length : Int) > maxJobCount) ∧
      (∀ p rest, listing.pages = p :: rest →
        p.JobList <+: (GetJobs listing maxJobCount).1) ∧
      (maxJobCount = 0 → listing.pages ≠ [] →
        (∀ p ∈ listing.pages, p.JobList.length = 5) →
        (GetJobs listing maxJobCount).1.length = 5) ∧
      (∀ i last, i + 1 = k → listing.pages[i]? = some last →
        ((GetJobs listing maxJobCount).1.length : Int)
          ≤ maxJobCount + (last.JobList.length : Int)) := by
  obtain ⟨k, hk, hres, hpos, hbelow, hstop⟩ :=
    listJobsPages_getJobsPage maxJobCount listing.err listing.pages []
  simp only [List.nil_append] at hres hbelow hstop
  have hres1 : (GetJobs listing maxJobCount).1 = firstPages listing.pages k := hres
  have hall : ∀ i, i < k → ((firstPages listing.pages i).length : Int) ≤ maxJobCount := by
    intro i hi
    by_cases h0 : i = 0
    · subst h0
      simpa [firstPages_zero] using hmax
    · exact hbelow i (by omega) hi
  refine ⟨k, hk, hres1, hall, hstop, ?_, ?_, ?_⟩
  · intro p rest hp
    have h1 : 1 ≤ k := hpos (by simp [hp])
    obtain ⟨j, rfl⟩ : ∃ j, k = j + 1 := ⟨k - 1, by omega⟩
    rw [hres1, hp, firstPages_cons_succ]
    exact List.prefix_append _ _
  · intro h0 hne h5
    subst h0
    obtain ⟨p, rest, hp⟩ := List.exists_cons_of_ne_nil hne
    have h1 : 1 ≤ k := hpos hne
    have hp5 : p.JobList.length = 5 := h5 p (by simp [hp])
    have hk1 : k = 1 := by
      by_contra hne1
      have := hall 1 (by omega)
      rw [hp, firstPages_cons_succ, firstPages_zero] at this
      simp [hp5] at this
    rw [hres1, hk1, hp, firstPages_cons_succ, firstPages_zero]
    simp [hp5]
  · intro i last hi hlast
    subst hi
    rw [hres1, firstPages_succ_of_getElem listing.pages i last hlast]
    have := hall i (by omega)
    simp only [List.length_append, Nat.cast_add]
    omega

/-- Pages of 2, 2 and 1 jobs under the cap 3. -/
theorem getJobs_soft_cap_witness :
    ∃ k, k ≤ 3 ∧
      (GetJobs ⟨[⟨[doneJob, doneJob]⟩, ⟨[doneJob, doneJob]⟩, ⟨[doneJob]⟩], none⟩ 3).1
        = firstPages [⟨[doneJob, doneJob]⟩, ⟨[doneJob, doneJob]⟩, ⟨[doneJob]⟩] k ∧
      (k = 3 ∨
        ((firstPages [⟨[doneJob, doneJob]⟩, ⟨[doneJob, doneJob]⟩, ⟨[doneJob]⟩] k).length : Int)
          > 3) := by
  obtain ⟨k, h1, h2, _, h4, _⟩ := getJobs_soft_cap
    ⟨[⟨[doneJob, doneJob]⟩, ⟨[doneJob, doneJob]⟩, ⟨[doneJob]⟩], none⟩ 3 (by decide)
  exact ⟨k, h1, h2, h4⟩

theorem processArchives_all_ok (unmarshal : Unmarshal) (l : List Archive)
    (h : ∀ a ∈ l, (unmarshal a.ArchiveDescription).2 = none) :
    processArchives unmarshal l = (l.map (withParsedPath unmarshal), none) := by
  induction l with
  | nil => rfl
  | cons a rest ih =>
    have ha : (unmarshal a.ArchiveDescription).2 = none := h a (List.mem_cons_self _ _)
    have hr := ih (fun b hb => h b (List.mem_cons_of_mem _ hb))
    simp [processArchives, Archive.Process, ha, hr, withParsedPath]

theorem processArchives_first_failure (unmarshal : Unmarshal) (pre : List Archive)
    (a : Archive) (post : List Archive) (err : String)
    (hpre : ∀ b ∈ pre, (unmarshal b.ArchiveDescription).2 = none)
    (ha : (unmarshal a.ArchiveDescription).2 = some err) :
    processArchives unmarshal (pre ++ a :: post) =
      (pre.map (withParsedPath unmarshal) ++ withParsedPath unmarshal a :: post, some err) := by
  induction pre with
  | nil => simp [processArchives, Archive.Process, ha, withParsedPath]
  | cons b rest ih =>
    have hb : (unmarshal b.ArchiveDescription).2 = none := hpre b (List.mem_cons_self _ _)
    have hr := ih (fun c hc => hpre c (List.mem_cons_of_mem _ hc))
    simp [processArchives, Archive.Process, hb, hr, withParsedPath]

theorem exists_first_failure (unmarshal : Unmarshal) (l : List Archive)
    (h : ∃ a ∈ l, (unmarshal a.ArchiveDescription).2 ≠ none) :
    ∃ pre a post err, l = pre ++ a :: post ∧
      (∀ b ∈ pre, (unmarshal b.ArchiveDescription).2 = none) ∧
      (unmarshal a.ArchiveDescription).2 = some err := by
  induction l with
  | nil => simp at h
  | cons a rest ih =>
    cases ha : (unmarshal a.ArchiveDescription).2 with
    | some err => exact ⟨[], a, rest, err, rfl, by simp, ha⟩
    | none =>
      have : ∃ b ∈ rest, (unmarshal b.ArchiveDescription).2 ≠ none := by
        obtain ⟨b, hb, hne⟩ := h
        rcases List.mem_cons.mp hb with rfl | hb1
        · exact absurd ha hne
        · exact ⟨b, hb1, hne⟩
      obtain ⟨pre, c, post, err, hl, hpre, hc⟩ := ih this
      refine ⟨a :: pre, c, post, err, by simp [hl], ?_, hc⟩
      intro b hb
      rcases List.mem_cons.mp hb with rfl | hb1
      · exact ha
      · exact hpre b hb1

/-- C8: Inventory.Process is fail-fast. It returns an error if and only if the description
of some archive fails to parse; the error is that of the first such archive in inventory
order, the archives before it carry their parsed path and the archives after it are left as
they were; when no description fails it returns nil and every archive carries the path of
its parsed description, so a description that parses to the path docs/readme.txt gives Path
docs/readme.txt. -/
theorem inventory_process_fail_fast (unmarshal : Unmarshal) (inv : Inventory) :
    ((inv.Process unmarshal).2 ≠ none ↔
      ∃ a ∈ inv.ArchiveList, (unmarshal a.ArchiveDescription).2 ≠ none) ∧
    (∀ pre a post err, inv.ArchiveList = pre ++ a :: post →
      (∀ b ∈ pre, (unmarshal b.ArchiveDescription).2 = none) →
      (unmarshal a.ArchiveDescription).2 = some err →
      (inv.Process unmarshal).2 = some err ∧
      (inv.Process unmarshal).1.ArchiveList =
        pre.map (withParsedPath unmarshal) ++ withParsedPath unmarshal a :: post) ∧
    ((∀ a ∈ inv.ArchiveList, (unmarshal a.ArchiveDescription).2 = none) →
      (inv.Process unmarshal).2 = none ∧
      (inv.Process unmarshal).1.ArchiveList = inv.ArchiveList.map (withParsedPath unmarshal) ∧
      ∀ a ∈ inv.ArchiveList,
        unmarshal a.ArchiveDescription = (⟨"docs/readme.txt"⟩, none) →
        ∃ b ∈ (inv.Process unmarshal).1.ArchiveList,
          b.ArchiveId = a.ArchiveId ∧ b.Path = "docs/readme.txt") := by
  have hfail : ∀ pre a post err, inv.ArchiveList = pre ++ a :: post →
      (∀ b ∈ pre, (unmarshal b.ArchiveDescription).2 = none) →
      (unmarshal a.ArchiveDescription).2 = some err →
      (inv.Process unmarshal).2 = some err ∧
      (inv.Process unmarshal).1.ArchiveList =
        pre.map (withParsedPath unmarshal) ++ withParsedPath unmarshal a :: post := by
    intro pre a post err hl hpre ha
    unfold Inventory.Process
    rw [hl, processArchives_first_failure unmarshal pre a post err hpre ha]
    exact ⟨rfl, rfl⟩
  have hok : (∀ a ∈ inv.ArchiveList, (unmarshal a.ArchiveDescription).2 = none) →
      (inv.Process unmarshal).2 = none ∧
      (inv.Process unmarshal).1.ArchiveList = inv.ArchiveList.map (withParsedPath unmarshal) := by
    intro h
    unfold Inventory.Process
    rw [processArchives_all_ok unmarshal inv.ArchiveList h]
    exact ⟨rfl, rfl⟩
  refine ⟨?_, hfail, ?_⟩
  · constructor
    · intro hne
      by_contra hno
      have hall : ∀ a ∈ inv.ArchiveList, (unmarshal a.ArchiveDescription).2 = none := by
        intro a ha
        by_contra hx
        exact hno ⟨a, ha, hx⟩
      exact hne (hok hall).1
    · intro hex
      obtain ⟨pre, a, post, err, hl, hpre, ha⟩ := exists_first_failure unmarshal _ hex
      rw [(hfail pre a post err hl hpre ha).1]
      simp
  · intro h
    refine ⟨(hok h).1, (hok h).2, ?_⟩
    intro a ha hparse
    rw [(hok h).2]
    refine ⟨withParsedPath unmarshal a, List.mem_map_of_mem _ ha, rfl, ?_⟩
    simp [withParsedPath, hparse]

/-- The end-to-end description parses to the path docs/readme.txt; a corrupt second
description stops the loop, and the third archive keeps its empty Path. -/
theorem inventory_process_fail_fast_witness :
    (Inventory.Process exampleUnmarshal
        ⟨"arn", "2020", [rawArchive "A1" "\x7b\"path\":\"docs/readme.txt\"\x7d"]⟩).2 = none ∧
    (Inventory.Process exampleUnmarshal
        ⟨"arn", "2020", [rawArchive "A1" "\x7b\"path\":\"docs/readme.txt\"\x7d"]⟩).1.ArchiveList
      = [archiveA1] ∧
    (Inventory.Process exampleUnmarshal
        ⟨"arn", "2020", [rawArchive "A1" "\x7b\"path\":\"docs/readme.txt\"\x7d",
          rawArchive "A2" "not json", rawArchive "A3" "\x7b\"path\":\"docs/readme.txt\"\x7d"]⟩).2
      = some "invalid character" ∧
    (Inventory.Process exampleUnmarshal
        ⟨"arn", "2020", [rawArchive "A1" "\x7b\"path\":\"docs/readme.txt\"\x7d",
          rawArchive "A2" "not json", rawArchive "A3" "\x7b\"path\":\"docs/readme.txt\"\x7d"]⟩).1.ArchiveList
      = [archiveA1, rawArchive "A2" "not json",
          rawArchive "A3" "\x7b\"path\":\"docs/readme.txt\"\x7d"] := by
  have h1 := (inventory_process_fail_fast exampleUnmarshal
    ⟨"arn", "2020", [rawArchive "A1" "\x7b\"path\":\"docs/readme.txt\"\x7d"]⟩).2.2 (by decide)
  have h2 := (inventory_process_fail_fast exampleUnmarshal
    ⟨"arn", "2020", [rawArchive "A1" "\x7b\"path\":\"docs/readme.txt\"\x7d",
      rawArchive "A2" "not json", rawArchive "A3" "\x7b\"path\":\"docs/readme.txt\"\x7d"]⟩).2.1
    [rawArchive "A1" "\x7b\"path\":\"docs/readme.txt\"\x7d"] (rawArchive "A2" "not json")
    [rawArchive "A3" "\x7b\"path\":\"docs/readme.txt\"\x7d"] "invalid character" rfl
    (by decide) (by decide)
  refine ⟨h1.1, ?_, h2.1, ?_⟩
  · rw [h1.2.1]; decide
  · rw [h2.2]; decide

theorem statNotExist_iff (fs : FileSystem) (name : String) :
    statNotExist fs name = true ↔ Stat fs name = some StatError.notExist := by
  simp [statNotExist]

/-- Where os.Stat answers no error other than not-exist, it answers not-exist wherever
neither a file nor a directory exists. -/
theorem statNotExist_of_not_existsAt (fs : FileSystem) (name : String)
    (hstat : ∀ err, Stat fs name ≠ some (StatError.other err))
    (hnone : existsAt fs name = false) : statNotExist fs name = true := by
  rw [statNotExist_iff]
  unfold Stat at hstat ⊢
  by_cases h0 : name = ""
  · simp [h0]
  · simp only [h0, if_false] at hstat ⊢
    cases he : fs.statErr name with
    | some e => rw [he] at hstat; exact absurd rfl (hstat e)
    | none =>
      rw [he] at hstat
      simp only at hstat ⊢
      by_cases ha : (ancestors name).any (fun a => decide (a ∈ fs.files)) = true
      · rw [if_pos ha] at hstat
        exact absurd rfl (hstat "not a directory")
      · rw [if_neg ha]
        have hx : ¬ (name ∈ fs.files ∨ name ∈ fs.dirs) := by
          have := hnone
          simp only [existsAt, decide_eq_false_iff_not, not_and] at this
          exact this h0
        rw [if_neg hx]

/-- Where os.Stat answers not-exist, neither a file nor a directory exists. -/
theorem not_existsAt_of_statNotExist (fs : FileSystem) (name : String)
    (h : statNotExist fs name = true) : existsAt fs name = false := by
  rw [statNotExist_iff] at h
  unfold Stat at h
  by_cases h0 : name = ""
  · simp [existsAt, h0]
  · simp only [h0, if_false] at h
    cases he : fs.statErr name with
    | some e => rw [he] at h; simp at h
    | none =>
      rw [he] at h
      simp only at h
      by_cases ha : (ancestors name).any (fun a => decide (a ∈ fs.files)) = true
      · rw [if_pos ha] at h; simp at h
      · rw [if_neg ha] at h
        by_cases hx : name ∈ fs.files ∨ name ∈ fs.dirs
        · rw [if_pos hx] at h; simp at h
        · simp only [existsAt, decide_eq_false_iff_not, not_and]
          exact fun _ => hx

/-- Where os.Stat answers no error other than not-exist at the restore path of an archive,
a job is needed exactly when the archive is not indexed and no file exists at that path. -/
theorem needsJob_eq_unrestored (env : Env) (fs : FileSystem) (restoreBasePath : String)
    (existingJobsMap : JobMap) (a : Archive)
    (hstat : existingJobsMap a.ArchiveId = none → ∀ err,
      Stat fs (RestoredFilePath env.Getwd restoreBasePath a.Path).1 ≠ some (StatError.other err)) :
    needsJob env fs restoreBasePath existingJobsMap a =
      unrestored env fs restoreBasePath existingJobsMap a := by
  unfold needsJob unrestored
  cases hidx : existingJobsMap a.ArchiveId with
  | some j => simp
  | none =>
    simp only [Option.isNone_none, Bool.true_and]
    cases hx : existsAt fs (RestoredFilePath env.Getwd restoreBasePath a.Path).1 with
    | false => simpa using statNotExist_of_not_existsAt fs _ (hstat hidx) hx
    | true =>
      cases hs : statNotExist fs (RestoredFilePath env.Getwd restoreBasePath a.Path).1 with
      | false => rfl
      | true =>
        have := not_existsAt_of_statNotExist fs _ hs
        rw [hx] at this
        cases this

/-- One turn of the initiation loop asks for a job only for its archive, and only when
the archive is not a key of the index. -/
theorem restoreArchive_requested (api : RestoreInitiator) (env : Env) (fs : FileSystem)
    (restoreBasePath : String) (existingJobsMap : JobMap) (a : Archive) :
    ∀ r ∈ (restoreArchive api env fs restoreBasePath existingJobsMap a).requested,
      r = a ∧ existingJobsMap a.ArchiveId = none := by
  intro r hr
  unfold restoreArchive at hr
  cases hidx : existingJobsMap a.ArchiveId with
  | some j =>
    rw [hidx] at hr
    simp only at hr
    split at hr <;> simp at hr
  | none =>
    rw [hidx] at hr
    simp only at hr
    split at hr
    · simp at hr
    · split at hr
      · split at hr <;> simp at hr <;> exact ⟨hr, rfl⟩
      · simp at hr

/-- Every request of the initiation loop is for an archive that is not a key of the index,
whether or not the loop ends in a panic. -/
theorem restoreArchives_requests_unindexed (api : RestoreInitiator) (env : Env) (fs : FileSystem)
    (restoreBasePath : String) (existingJobsMap : JobMap) (archives : List Archive) :
    ∀ r ∈ (restoreArchives api env fs restoreBasePath existingJobsMap archives).requested,
      r ∈ archives ∧ existingJobsMap r.ArchiveId = none := by
  induction archives with
  | nil => intro r hr; simp [restoreArchives] at hr
  | cons a rest ih =>
    intro r hr
    unfold restoreArchives at hr
    have hstep := restoreArchive_requested api env fs restoreBasePath existingJobsMap a
    split at hr
    · obtain ⟨h1, h2⟩ := hstep r hr
      subst h1
      exact ⟨List.mem_cons_self _ _, h2⟩
    · rcases List.mem_append.mp hr with h | h
      · obtain ⟨h1, h2⟩ := hstep r h
        subst h1
        exact ⟨List.mem_cons_self _ _, h2⟩
      · obtain ⟨hb, h2⟩ := ih r h
        exact ⟨List.mem_cons_of_mem _ hb, h2⟩

/-- The initiation loop, when no turn panics: an indexed job that is logged has a status
code and a creation date, the restore path of an archive that is not indexed can be
derived, and every call of InitiateRestoreJob returns without error. The archives asked
for are those that are not indexed and at whose restore path os.Stat answers not-exist, in
order, and the requests sent are those of these calls. -/
theorem restoreArchives_run (api : RestoreInitiator) (env : Env) (fs : FileSystem)
    (restoreBasePath : String) (existingJobsMap : JobMap) (archives : List Archive)
    (hlog : ∀ a ∈ archives, ∀ j, existingJobsMap a.ArchiveId = some j →
      j.StatusCode ≠ none ∧ j.CreationDate ≠ none)
    (hpath : ∀ a ∈ archives, existingJobsMap a.ArchiveId = none →
      (RestoredFilePath env.Getwd restoreBasePath a.Path).2 = none)
    (hinit : ∀ a ∈ archives, ∃ jobId, (api.InitiateRestoreJob a).result = .ok (jobId, none)) :
    restoreArchives api env fs restoreBasePath existingJobsMap archives =
      ⟨archives.filter (needsJob env fs restoreBasePath existingJobsMap),
        ((archives.filter (needsJob env fs restoreBasePath existingJobsMap)).map
          (fun a => (api.InitiateRestoreJob a).sent)).flatten,
        none⟩ := by
  induction archives with
  | nil => rfl
  | cons a rest ih =>
    have hr := ih (fun b hb => hlog b (List.mem_cons_of_mem _ hb))
      (fun b hb => hpath b (List.mem_cons_of_mem _ hb))
      (fun b hb => hinit b (List.mem_cons_of_mem _ hb))
    have hstep : restoreArchive api env fs restoreBasePath existingJobsMap a =
        (if needsJob env fs restoreBasePath existingJobsMap a = true
          then ⟨[a], (api.InitiateRestoreJob a).sent, none⟩ else ⟨[], [], none⟩) := by
      unfold restoreArchive needsJob
      cases hidx : existingJobsMap a.ArchiveId with
      | some j =>
        obtain ⟨h1, h2⟩ := hlog a (List.mem_cons_self _ _) j hidx
        obtain ⟨sc, hsc⟩ := Option.ne_none_iff_exists'.mp h1
        obtain ⟨cd, hcd⟩ := Option.ne_none_iff_exists'.mp h2
        simp [hsc, hcd]
      | none =>
        have hp := hpath a (List.mem_cons_self _ _) hidx
        obtain ⟨jobId, hj⟩ := hinit a (List.mem_cons_self _ _)
        rcases hrp : RestoredFilePath env.Getwd restoreBasePath a.Path with ⟨filePath, perr⟩
        rw [hrp] at hp
        simp only at hp
        subst hp
        by_cases hs : statNotExist fs filePath = true
        · simp [hs, hj]
        · simp [hs]
    unfold restoreArchives
    rw [hstep, hr]
    by_cases hn : needsJob env fs restoreBasePath existingJobsMap a = true
    · simp [hn, List.filter_cons]
    · simp [hn, List.filter_cons]

/-- InitiateRestoreJob sends the service one request: an archive-retrieval of the
archive, with the archive path as description and the tier of the api. -/
theorem initiateRestoreJob_sent (api : GlacierApi) (archive : Archive) :
    (api.InitiateRestoreJob archive).sent =
      [⟨api.AccountId, api.VaultName,
        ⟨"archive-retrieval", archive.ArchiveId, archive.Path, api.RestoreTier⟩⟩] := by
  unfold GlacierApi.InitiateRestoreJob GlacierService.call
  rcases api.Service.InitiateJob ⟨api.AccountId, api.VaultName,
      ⟨"archive-retrieval", archive.ArchiveId, archive.Path, api.RestoreTier⟩⟩
    with ⟨_ | res, _ | err⟩
  · rfl
  · rfl
  · simp only
    cases res.JobId <;> rfl
  · rfl

/-- C4 as stated fails: the service accepts every request, and in each of three runs an
archive that is not indexed and has no file at its restore path gets no job. With os.Getwd
failing under a relative base path RestoreFromInventory panics on the error of
RestoredFilePath; with an indexed job without status code it panics in the log line before
it reaches the archive A2; and where the restore path lies below the regular file
/restore/docs/readme.txt, os.Stat fails with an error that is not os.ErrNotExist and the
archive is skipped as if its file existed. -/
theorem restoreFromInventory_panics_before_request :
    (∀ a, ∃ jobId, (testApi.toRestoreInitiator.InitiateRestoreJob a).result
      = .ok (jobId, none)) ∧
    unrestored envNoWd (fsOf [] ["/"]) "restore/" JobMap.empty archiveA1 = true ∧
    RestoreFromInventory testApi.toRestoreInitiator envNoWd (fsOf [] ["/"])
        ⟨"", "", [archiveA1]⟩ "restore/" JobMap.empty
      = ⟨[], [], some (Panic.raised "getwd: no such file or directory")⟩ ∧
    unrestored (envAt "/") (fsOf [] ["/"]) "/restore"
      (JobMap.empty.insert "A1" (mkJob (some "ArchiveRetrieval") (some "A1") (some "j1")))
      (archiveAt "A2" "docs/b.txt") = true ∧
    RestoreFromInventory testApi.toRestoreInitiator (envAt "/") (fsOf [] ["/"])
        ⟨"", "", [archiveA1, archiveAt "A2" "docs/b.txt"]⟩ "/restore"
        (JobMap.empty.insert "A1" (mkJob (some "ArchiveRetrieval") (some "A1") (some "j1")))
      = ⟨[], [], some Panic.nilDeref⟩ ∧
    RestoredFilePath (envAt "/").Getwd "/restore" "docs/readme.txt/x"
      = ("/restore/docs/readme.txt/x", none) ∧
    unrestored (envAt "/")
      (fsOf ["/restore/docs/readme.txt"] ["/restore/docs", "/restore", "/"]) "/restore"
      JobMap.empty (archiveAt "A5" "docs/readme.txt/x") = true ∧
    RestoreFromInventory testApi.toRestoreInitiator (envAt "/")
        (fsOf ["/restore/docs/readme.txt"] ["/restore/docs", "/restore", "/"])
        ⟨"", "", [archiveAt "A5" "docs/readme.txt/x"]⟩ "/restore" JobMap.empty
      = ⟨[], [], none⟩ := by
  refine ⟨fun a => ⟨"J1", rfl⟩, by decide, by decide, by decide, by decide, by decide,
    by decide, by decide⟩

/-- C4 (amended): no job is ever requested for an archive whose identity is a key of the
index, whatever else happens and however often the pass runs. When every indexed job that
is met has a status code and a creation date, the restore path of every archive that is not
indexed can be derived, os.Stat fails at no such path with an error other than
os.ErrNotExist, and every job-initiation call succeeds, RestoreFromInventory does not
panic and the archives for which it requests a retrieval job are exactly the inventory's
archives, in inventory order, whose identity is not a key of the index and for which no
file exists at RestoredFilePath(base, archive.Path); for the one-archive inventory (id A1,
path docs/readme.txt) with empty index and nothing at the restore path, exactly one job is
then requested, and the one request GlacierApi.InitiateRestoreJob sends to the service is
an archive-retrieval for A1 with description docs/readme.txt. -/
theorem restoreFromInventory_requests (api : RestoreInitiator) (env : Env) (fs : FileSystem)
    (inventory : Inventory) (restoreBasePath : String) (existingJobsMap : JobMap) :
    (∀ r ∈ (RestoreFromInventory api env fs inventory restoreBasePath
        existingJobsMap).requested, existingJobsMap r.ArchiveId = none) ∧
    ((∀ a ∈ inventory.ArchiveList, ∀ j, existingJobsMap a.ArchiveId = some j →
        j.StatusCode ≠ none ∧ j.CreationDate ≠ none) →
      (∀ a ∈ inventory.ArchiveList, existingJobsMap a.ArchiveId = none →
        (RestoredFilePath env.Getwd restoreBasePath a.Path).2 = none) →
      (∀ a ∈ inventory.ArchiveList, existingJobsMap a.ArchiveId = none → ∀ err,
        Stat fs (RestoredFilePath env.Getwd restoreBasePath a.Path).1
          ≠ some (StatError.other err)) →
      (∀ a ∈ inventory.ArchiveList,
        ∃ jobId, (api.InitiateRestoreJob a).result = .ok (jobId, none)) →
      (RestoreFromInventory api env fs inventory restoreBasePath existingJobsMap).panic
        = none ∧
      (RestoreFromInventory api env fs inventory restoreBasePath existingJobsMap).requested
        = inventory.ArchiveList.filter
            (unrestored env fs restoreBasePath existingJobsMap) ∧
      (∀ (gapi : GlacierApi) (a : Archive), api = gapi.toRestoreInitiator →
        inventory.ArchiveList = [a] → a.ArchiveId = "A1" → a.Path = "docs/readme.txt" →
        existingJobsMap = JobMap.empty →
        existsAt fs (RestoredFilePath env.Getwd restoreBasePath a.Path).1 = false →
        RestoreFromInventory api env fs inventory restoreBasePath existingJobsMap
          = ⟨[a], [⟨gapi.AccountId, gapi.VaultName,
              ⟨"archive-retrieval", "A1", "docs/readme.txt", gapi.RestoreTier⟩⟩], none⟩)) := by
  constructor
  · intro r hr
    exact (restoreArchives_requests_unindexed api env fs restoreBasePath
      existingJobsMap inventory.ArchiveList r hr).2
  · intro hlog hpath hstat hinit
    have hmain := restoreArchives_run api env fs restoreBasePath existingJobsMap
      inventory.ArchiveList hlog hpath hinit
    have hfilter : inventory.ArchiveList.filter
          (needsJob env fs restoreBasePath existingJobsMap) =
        inventory.ArchiveList.filter (unrestored env fs restoreBasePath existingJobsMap) :=
      List.filter_congr (fun a ha =>
        needsJob_eq_unrestored env fs restoreBasePath existingJobsMap a (hstat a ha))
    refine ⟨?_, ?_, ?_⟩
    · unfold RestoreFromInventory
      rw [hmain]
    · unfold RestoreFromInventory
      rw [hmain, hfilter]
    · intro gapi a hapi hl hid hp hidx hnone
      unfold RestoreFromInventory
      rw [hmain, hfilter, hl]
      have hn : unrestored env fs restoreBasePath existingJobsMap a = true := by
        simp [unrestored, hidx, JobMap.empty, hnone]
      simp [List.filter_cons, hn, hapi, GlacierApi.toRestoreInitiator,
        initiateRestoreJob_sent, hid, hp]

/-- The end-to-end example on a file system that holds the root directory only. -/
theorem restoreFromInventory_requests_witness :
    RestoreFromInventory testApi.toRestoreInitiator (envAt "/") (fsOf [] ["/"])
        ⟨"arn", "2020", [archiveA1]⟩ "/restore" JobMap.empty
      = ⟨[archiveA1],
          [⟨"acct", "vault", ⟨"archive-retrieval", "A1", "docs/readme.txt", "Bulk"⟩⟩],
          none⟩ :=
  ((restoreFromInventory_requests testApi.toRestoreInitiator (envAt "/") (fsOf [] ["/"])
      ⟨"arn", "2020", [archiveA1]⟩ "/restore" JobMap.empty).2
    (by intro a _ j h; simp [JobMap.empty] at h)
    (by intro a ha _; simp at ha; subst ha; decide)
    (by
      intro a ha _ err
      simp at ha
      subst ha
      have h : Stat (fsOf [] ["/"]) (RestoredFilePath (envAt "/").Getwd "/restore"
          archiveA1.Path).1 = some StatError.notExist := by decide
      rw [h]
      simp)
    (fun a _ => ⟨"J1", rfl⟩)).2.2 testApi archiveA1 rfl rfl rfl rfl rfl (by decide)

/-- C10 as stated fails: the inventory holds two entries for the archive identity A1,
neither indexed, with nothing at their restore paths on a file system that holds the root
directory only; after the job for the first entry is created the second entry is not
skipped, and two retrieval jobs are requested for A1 in one pass. -/
theorem restoreFromInventory_duplicate_entries_both_requested :
    RestoreFromInventory testApi.toRestoreInitiator (envAt "/") (fsOf [] ["/"])
        ⟨"arn", "2020", [archiveA1, archiveAt "A1" "docs/other.txt"]⟩
        "/restore" JobMap.empty
      = ⟨[archiveA1, archiveAt "A1" "docs/other.txt"],
          [⟨"acct", "vault", ⟨"archive-retrieval", "A1", "docs/readme.txt", "Bulk"⟩⟩,
            ⟨"acct", "vault", ⟨"archive-retrieval", "A1", "docs/other.txt", "Bulk"⟩⟩],
          none⟩ ∧
    archiveA1.ArchiveId = (archiveAt "A1" "docs/other.txt").ArchiveId := by
  decide

/-- C10 (amended): RestoreFromInventory only reads the job index, so a job created earlier
in an initiation pass is not visible to later decisions of the same pass. When no turn
panics (every indexed job that is met has a status code and a creation date, the restore
path of every archive that is not indexed can be derived, every job-initiation call
succeeds) and os.Stat fails at no restore path with an error other than os.ErrNotExist,
each entry is decided against the index as it was at the start: for an inventory in which
two entries carry the same archive identity, not indexed and with no file at their target
paths, a job is requested for both; at most one retrieval job per archive identity is
created in one pass when the archive identities of the inventory are pairwise distinct. -/
theorem restoreFromInventory_decides_on_initial_index (api : RestoreInitiator) (env : Env)
    (fs : FileSystem) (inventory : Inventory) (restoreBasePath : String)
    (existingJobsMap : JobMap)
    (hlog : ∀ a ∈ inventory.ArchiveList, ∀ j, existingJobsMap a.ArchiveId = some j →
      j.StatusCode ≠ none ∧ j.CreationDate ≠ none)
    (hpath : ∀ a ∈ inventory.ArchiveList, existingJobsMap a.ArchiveId = none →
      (RestoredFilePath env.Getwd restoreBasePath a.Path).2 = none)
    (hstat : ∀ a ∈ inventory.ArchiveList, existingJobsMap a.ArchiveId = none → ∀ err,
      Stat fs (RestoredFilePath env.Getwd restoreBasePath a.Path).1
        ≠ some (StatError.other err))
    (hinit : ∀ a ∈ inventory.ArchiveList,
      ∃ jobId, (api.InitiateRestoreJob a).result = .ok (jobId, none)) :
    (RestoreFromInventory api env fs inventory restoreBasePath existingJobsMap).panic = none ∧
    (RestoreFromInventory api env fs inventory restoreBasePath existingJobsMap).requested =
      inventory.ArchiveList.filter (unrestored env fs restoreBasePath existingJobsMap) ∧
    (∀ pre a mid b post, inventory.ArchiveList = pre ++ a :: (mid ++ b :: post) →
      a.ArchiveId = b.ArchiveId →
      existingJobsMap a.ArchiveId = none →
      existsAt fs (RestoredFilePath env.Getwd restoreBasePath a.Path).1 = false →
      existsAt fs (RestoredFilePath env.Getwd restoreBasePath b.Path).1 = false →
      2 ≤ (((RestoreFromInventory api env fs inventory restoreBasePath
        existingJobsMap).requested).map Archive.ArchiveId).count a.ArchiveId) ∧
    ((inventory.ArchiveList.map Archive.ArchiveId).Nodup →
      (((RestoreFromInventory api env fs inventory restoreBasePath
        existingJobsMap).requested).map Archive.ArchiveId).Nodup) := by
  have hmain := restoreArchives_run api env fs restoreBasePath existingJobsMap
    inventory.ArchiveList hlog hpath hinit
  have hfilter : inventory.ArchiveList.filter
        (needsJob env fs restoreBasePath existingJobsMap) =
      inventory.ArchiveList.filter (unrestored env fs restoreBasePath existingJobsMap) :=
    List.filter_congr (fun a ha =>
      needsJob_eq_unrestored env fs restoreBasePath existingJobsMap a (hstat a ha))
  have hreq : (RestoreFromInventory api env fs inventory restoreBasePath
      existingJobsMap).requested =
      inventory.ArchiveList.filter (unrestored env fs restoreBasePath existingJobsMap) := by
    unfold RestoreFromInventory
    rw [hmain, hfilter]
  refine ⟨by unfold RestoreFromInventory; rw [hmain], hreq, ?_, ?_⟩
  · intro pre a mid b post hl hab hidx hna hnb
    have ha : unrestored env fs restoreBasePath existingJobsMap a = true := by
      simp [unrestored, hidx, hna]
    have hb : unrestored env fs restoreBasePath existingJobsMap b = true := by
      simp [unrestored, ← hab, hidx, hnb]
    rw [hreq, hl]
    simp only [List.filter_append, List.filter_cons, ha, hb, if_true, List.map_append,
      List.map_cons, List.count_append, List.count_cons, hab, beq_self_eq_true]
    omega
  · intro hnd
    rw [hreq]
    exact hnd.sublist (List.Sublist.map _ (List.filter_sublist _))

/-- An inventory with A1 restored already and two entries for A2 with nothing at their
restore paths: both entries for A2 are requested. -/
theorem restoreFromInventory_decides_on_initial_index_witness :
    (RestoreFromInventory testApi.toRestoreInitiator (envAt "/")
        (fsOf ["/restore/docs/readme.txt"] ["/restore/docs", "/restore", "/"])
        ⟨"arn", "2020", [archiveA1, archiveAt "A2" "docs/b.txt", archiveAt "A2" "docs/c.txt"]⟩
        "/restore" JobMap.empty).panic = none ∧
    2 ≤ (((RestoreFromInventory testApi.toRestoreInitiator (envAt "/")
        (fsOf ["/restore/docs/readme.txt"] ["/restore/docs", "/restore", "/"])
        ⟨"arn", "2020", [archiveA1, archiveAt "A2" "docs/b.txt", archiveAt "A2" "docs/c.txt"]⟩
        "/restore" JobMap.empty).requested).map Archive.ArchiveId).count "A2" := by
  have h := restoreFromInventory_decides_on_initial_index testApi.toRestoreInitiator
    (envAt "/") (fsOf ["/restore/docs/readme.txt"] ["/restore/docs", "/restore", "/"])
    ⟨"arn", "2020", [archiveA1, archiveAt "A2" "docs/b.txt", archiveAt "A2" "docs/c.txt"]⟩
    "/restore" JobMap.empty
    (by intro a _ j h; simp [JobMap.empty] at h)
    (by
      intro a ha _
      simp only [List.mem_cons, List.mem_singleton, List.not_mem_nil, or_false] at ha
      rcases ha with rfl | rfl | rfl <;> decide)
    (by
      intro a ha _ err
      simp only [List.mem_cons, List.mem_singleton, List.not_mem_nil, or_false] at ha
      have hall : ∀ b ∈ [archiveA1, archiveAt "A2" "docs/b.txt", archiveAt "A2" "docs/c.txt"],
          (Stat (fsOf ["/restore/docs/readme.txt"] ["/restore/docs", "/restore", "/"])
            (RestoredFilePath (envAt "/").Getwd "/restore" b.Path).1 = none ∨
           Stat (fsOf ["/restore/docs/readme.txt"] ["/restore/docs", "/restore", "/"])
            (RestoredFilePath (envAt "/").Getwd "/restore" b.Path).1
              = some StatError.notExist) := by decide
      rcases hall a (by simpa using ha) with h | h <;> rw [h] <;> simp)
    (fun a _ => ⟨"J1", rfl⟩)
  exact ⟨h.1, h.2.2.1 [archiveA1] (archiveAt "A2" "docs/b.txt") []
    (archiveAt "A2" "docs/c.txt") [] rfl rfl rfl (by decide) (by decide)⟩

theorem extends_refl (fs : FileSystem) : fs.extends_ fs :=
  ⟨fun _ h => h, fun _ h => h, rfl⟩

theorem extends_trans {fs2 fs1 fs : FileSystem} (h2 : fs2.extends_ fs1)
    (h1 : fs1.extends_ fs) : fs2.extends_ fs :=
  ⟨fun p hp => h2.1 p (h1.1 p hp), fun p hp => h2.2.1 p (h1.2.1 p hp),
    h2.2.2.trans h1.2.2⟩

/-- A path at which os.Stat does not answer not-exist keeps that property when the file
system gains files and directories. -/
theorem statNotExist_false_of_extends {fs1 fs : FileSystem} (h : fs1.extends_ fs)
    (name : String) (hs : statNotExist fs name = false) : statNotExist fs1 name = false := by
  have hs1 : Stat fs name ≠ some StatError.notExist := by
    simpa [statNotExist] using hs
  have goal : Stat fs1 name ≠ some StatError.notExist := by
    unfold Stat at hs1 ⊢
    by_cases h0 : name = ""
    · simp [h0] at hs1
    · simp only [h0, if_false] at hs1 ⊢
      rw [h.2.2]
      cases he : fs.statErr name with
      | some e => simp
      | none =>
        rw [he] at hs1
        simp only at hs1 ⊢
        by_cases ha1 : (ancestors name).any (fun a => decide (a ∈ fs1.files)) = true
        · rw [if_pos ha1]; simp
        · rw [if_neg ha1]
          have ha : ¬ (ancestors name).any (fun a => decide (a ∈ fs.files)) = true := by
            intro hx
            apply ha1
            rw [List.any_eq_true] at hx ⊢
            obtain ⟨x, hx1, hx2⟩ := hx
            exact ⟨x, hx1, by simpa using h.1 x (by simpa using hx2)⟩
          rw [if_neg ha] at hs1
          by_cases hx : name ∈ fs.files ∨ name ∈ fs.dirs
          · have hx1 : name ∈ fs1.files ∨ name ∈ fs1.dirs :=
              hx.elim (fun y => Or.inl (h.1 _ y)) (fun y => Or.inr (h.2.1 _ y))
            rw [if_pos hx1]; simp
          · rw [if_neg hx] at hs1
            exact absurd rfl hs1
  simpa [statNotExist] using goal

/-- At a regular file os.Stat does not answer not-exist. -/
theorem statNotExist_false_of_file (fs : FileSystem) (name : String) (h0 : name ≠ "")
    (hf : name ∈ fs.files) : statNotExist fs name = false := by
  have goal : Stat fs name ≠ some StatError.notExist := by
    unfold Stat
    simp only [h0, if_false]
    cases fs.statErr name with
    | some e => simp
    | none =>
      simp only
      by_cases ha : (ancestors name).any (fun a => decide (a ∈ fs.files)) = true
      · rw [if_pos ha]; simp
      · rw [if_neg ha, if_pos (Or.inl hf)]; simp
  simpa [statNotExist] using goal

theorem mkdirAll_extends (env : Env) (fs : FileSystem) (path : String) :
    (MkdirAll env fs path).1.extends_ fs := by
  unfold MkdirAll
  cases env.MkdirAllErr path with
  | some e => exact extends_refl fs
  | none =>
    simp only
    split
    · exact extends_refl fs
    · split
      · exact extends_refl fs
      · exact ⟨fun _ h => h, fun p hp => List.mem_append_right _ hp, rfl⟩

theorem writeFile_extends (env : Env) (fs : FileSystem) (name : String)
    (content : List UInt8) :
    (WriteFile env fs name content).1.extends_ fs ∧
    ((WriteFile env fs name content).2 = none →
      name ∈ (WriteFile env fs name content).1.files) := by
  unfold WriteFile
  cases env.WriteFileErr name with
  | some e => exact ⟨extends_refl fs, by simp⟩
  | none =>
    simp only
    split
    · exact ⟨extends_refl fs, by simp⟩
    · split
      · exact ⟨extends_refl fs, by simp⟩
      · split
        · next hf => exact ⟨extends_refl fs, fun _ => hf⟩
        · exact ⟨⟨fun p hp => List.mem_cons_of_mem _ hp, fun _ h => h, rfl⟩,
            fun _ => List.mem_cons_self _ _⟩

/-- WriteDataFile keeps what the file system holds, and when it returns no error the
file is there. -/
theorem writeDataFile_ok (env : Env) (fs : FileSystem) (realPath : String)
    (content : List UInt8) :
    (WriteDataFile env fs realPath content).1.extends_ fs ∧
    ((WriteDataFile env fs realPath content).2 = none →
      realPath ∈ (WriteDataFile env fs realPath content).1.files) := by
  unfold WriteDataFile
  have hm := mkdirAll_extends env fs (Dir realPath)
  rcases hmk : MkdirAll env fs (Dir realPath) with ⟨fs1, merr⟩
  rw [hmk] at hm
  cases merr with
  | some e => exact ⟨hm, by simp⟩
  | none =>
    simp only
    exact ⟨extends_trans (writeFile_extends env fs1 realPath content).1 hm,
      (writeFile_extends env fs1 realPath content).2⟩

/-- A job at whose target path os.Stat does not answer not-exist is neither fetched nor
written. -/
theorem restoreData_skips_existing (api : JobOutputer) (env : Env) (restoreBasePath : String)
    (job : JobDescription) (w : World)
    (h : ∀ d, job.JobDescription = some d →
      statNotExist w.fs (RestoredFilePath env.Getwd restoreBasePath d).1 = false) :
    RestoreDataFromCompletedJob api env restoreBasePath job w = .ok (w, none) := by
  unfold RestoreDataFromCompletedJob
  cases hd : job.JobDescription with
  | none => rfl
  | some d =>
    have := h d hd
    simp [this]

/-- A turn of the download loop that ends without error keeps what the file system holds,
and leaves the target path of the job on disk when that path is not the empty string. -/
theorem restoreData_ok_grows (api : JobOutputer) (env : Env) (restoreBasePath : String)
    (job : JobDescription) (w w1 : World)
    (h : RestoreDataFromCompletedJob api env restoreBasePath job w = .ok (w1, none)) :
    w1.fs.extends_ w.fs ∧
    ∀ d, job.JobDescription = some d →
      (RestoredFilePath env.Getwd restoreBasePath d).1 ≠ "" →
      statNotExist w1.fs (RestoredFilePath env.Getwd restoreBasePath d).1 = false := by
  unfold RestoreDataFromCompletedJob at h
  cases hd : job.JobDescription with
  | none =>
    rw [hd] at h
    simp only [Except.ok.injEq, Prod.mk.injEq, and_true] at h
    subst h
    exact ⟨extends_refl _, fun d hd1 => by cases hd1⟩
  | some d =>
    rw [hd] at h
    simp only at h
    by_cases hs : statNotExist w.fs (RestoredFilePath env.Getwd restoreBasePath d).1 = true
    · rw [if_pos hs] at h
      cases hj : job.JobId with
      | none => rw [hj] at h; cases h
      | some jobId =>
        rw [hj] at h
        simp only at h
        cases hg : api.GetJobOutput jobId with
        | error p => rw [hg] at h; cases h
        | ok out =>
         obtain ⟨desc, content, gerr⟩ := out
         rw [hg] at h
         cases gerr with
         | some e => simp at h
         | none =>
          simp only at h
          by_cases hne : (RestoredFilePath env.Getwd restoreBasePath d).1 ≠ ""
          · rw [if_pos hne] at h
            cases hsz : job.ArchiveSizeInBytes with
            | none => rw [hsz] at h; cases h
            | some sz =>
              rw [hsz] at h
              simp only [Except.ok.injEq, Prod.mk.injEq] at h
              obtain ⟨hw, herr⟩ := h
              have hok := writeDataFile_ok env w.fs
                (RestoredFilePath env.Getwd restoreBasePath d).1 content
              subst hw
              refine ⟨hok.1, ?_⟩
              intro d1 hd1 _
              cases hd1
              exact statNotExist_false_of_file _ _ hne (hok.2 herr)
          · rw [if_neg hne] at h
            simp only [Except.ok.injEq, Prod.mk.injEq, and_true] at h
            subst h
            refine ⟨extends_refl _, ?_⟩
            intro d1 hd1 hne1
            cases hd1
            exact absurd hne1 hne
    · rw [if_neg hs] at h
      simp only [Except.ok.injEq, Prod.mk.injEq, and_true] at h
      subst h
      refine ⟨extends_refl _, ?_⟩
      intro d1 hd1 _
      cases hd1
      simpa using hs

/-- A download pass that ends without panic: every job has an action, the file system
keeps what it held, and os.Stat does not answer not-exist at the target path of any
ArchiveRetrieval job unless that path is the empty string. -/
theorem downloadPass_ok_grows (api : JobOutputer) (env : Env) (restoreBasePath : String)
    (jobs : List JobDescription) :
    ∀ w w1 : World, downloadPass api env restoreBasePath jobs w = .ok w1 →
      (∀ job ∈ jobs, job.Action ≠ none) ∧
      w1.fs.extends_ w.fs ∧
      ∀ job ∈ jobs, job.Action = some "ArchiveRetrieval" →
        ∀ d, job.JobDescription = some d →
          (RestoredFilePath env.Getwd restoreBasePath d).1 ≠ "" →
          statNotExist w1.fs (RestoredFilePath env.Getwd restoreBasePath d).1 = false := by
  induction jobs with
  | nil =>
    intro w w1 h
    simp [downloadPass] at h
    subst h
    exact ⟨by simp, extends_refl _, by simp⟩
  | cons job rest ih =>
    intro w w1 h
    unfold downloadPass at h
    cases ha : job.Action with
    | none => rw [ha] at h; cases h
    | some action =>
      rw [ha] at h
      simp only at h
      by_cases hAR : action = "ArchiveRetrieval"
      · subst hAR
        simp only [ne_eq, not_true_eq_false, if_false] at h
        cases hstep : RestoreDataFromCompletedJob api env restoreBasePath job w with
        | error p => rw [hstep] at h; cases h
        | ok res =>
          obtain ⟨w2, err⟩ := res
          rw [hstep] at h
          cases err with
          | some e => cases h
          | none =>
            simp only at h
            obtain ⟨h1, h2, h3⟩ := ih w2 w1 h
            obtain ⟨g1, g2⟩ := restoreData_ok_grows api env restoreBasePath job w w2 hstep
            refine ⟨?_, extends_trans h2 g1, ?_⟩
            · intro j hj
              rcases List.mem_cons.mp hj with rfl | hj1
              · rw [ha]; simp
              · exact h1 j hj1
            · intro j hj hja d hd hne
              rcases List.mem_cons.mp hj with rfl | hj1
              · exact statNotExist_false_of_extends h2 _ (g2 d hd hne)
              · exact h3 j hj1 hja d hd hne
      · rw [if_pos hAR] at h
        obtain ⟨h1, h2, h3⟩ := ih w w1 h
        refine ⟨?_, h2, ?_⟩
        · intro j hj
          rcases List.mem_cons.mp hj with rfl | hj1
          · rw [ha]; simp
          · exact h1 j hj1
        · intro j hj hja d hd hne
          rcases List.mem_cons.mp hj with rfl | hj1
          · rw [ha] at hja
            simp only [Option.some.injEq] at hja
            exact absurd hja hAR
          · exact h3 j hj1 hja d hd hne

/-- A download pass over jobs at whose target paths os.Stat does not answer not-exist
changes nothing. -/
theorem downloadPass_all_present (api : JobOutputer) (env : Env) (restoreBasePath : String)
    (jobs : List JobDescription) (w : World)
    (hact : ∀ job ∈ jobs, job.Action ≠ none)
    (hpresent : ∀ job ∈ jobs, job.Action = some "ArchiveRetrieval" →
      ∀ d, job.JobDescription = some d →
        statNotExist w.fs (RestoredFilePath env.Getwd restoreBasePath d).1 = false) :
    downloadPass api env restoreBasePath jobs w = .ok w := by
  induction jobs with
  | nil => rfl
  | cons job rest ih =>
    have hr := ih (fun j hj => hact j (List.mem_cons_of_mem _ hj))
      (fun j hj => hpresent j (List.mem_cons_of_mem _ hj))
    obtain ⟨action, ha⟩ := Option.ne_none_iff_exists'.mp (hact job (List.mem_cons_self _ _))
    unfold downloadPass
    rw [ha]
    simp only
    by_cases hAR : action = "ArchiveRetrieval"
    · subst hAR
      simp only [ne_eq, not_true_eq_false, if_false]
      rw [restoreData_skips_existing api env restoreBasePath job w
        (hpresent job (List.mem_cons_self _ _) ha)]
      exact hr
    · rw [if_pos hAR]
      exact hr

/-- C6 fails on the code. The working directory is gone, so os.Getwd fails and, under
the relative base path restore/, RestoredFilePath returns the empty path with an error;
RestoreDataFromCompletedJob overwrites that error with the one of os.Stat. The first pass
over the one job j1 calls GetJobOutput, skips the write for the empty path and ends without
error and without a file; the second pass over the same list on the resulting file system
calls GetJobOutput for j1 again. -/
theorem downloadPass_refetches_without_target_path :
    RestoredFilePath envNoWd.Getwd "restore/" "a.txt"
      = ("", some "getwd: no such file or directory") ∧
    ∃ w1 w2 : World,
      downloadPass testOutputer envNoWd "restore/" [doneJob] ⟨fsOf [] ["/"], [], []⟩
        = .ok w1 ∧
      w1.fetched = ["j1"] ∧ w1.written = [] ∧ w1.fs.files = [] ∧
      downloadPass testOutputer envNoWd "restore/" [doneJob] ⟨w1.fs, [], []⟩ = .ok w2 ∧
      w2.fetched = ["j1"] :=
  ⟨by decide, ⟨fsOf [] ["/"], ["j1"], []⟩, ⟨fsOf [] ["/"], ["j1"], []⟩,
    rfl, rfl, rfl, rfl, rfl, rfl⟩

/-- Idempotence of the download pass where every target path is derived: when
RestoredFilePath yields a path that is not the empty string for the description of every
job of the list and a first pass ends without error, a second pass over the same list on
the resulting file system calls GetJobOutput and WriteDataFile for no job and leaves the
file system as it is. -/
theorem downloadPass_idempotent (api : JobOutputer) (env : Env) (restoreBasePath : String)
    (jobs : List JobDescription) (w w1 : World)
    (hpath : ∀ job ∈ jobs, ∀ d, job.JobDescription = some d →
      (RestoredFilePath env.Getwd restoreBasePath d).1 ≠ "")
    (hfirst : downloadPass api env restoreBasePath jobs w = .ok w1) :
    downloadPass api env restoreBasePath jobs ⟨w1.fs, [], []⟩ = .ok ⟨w1.fs, [], []⟩ := by
  obtain ⟨hact, _, hdisk⟩ := downloadPass_ok_grows api env restoreBasePath jobs w w1 hfirst
  apply downloadPass_all_present api env restoreBasePath jobs ⟨w1.fs, [], []⟩ hact
  intro job hj ha d hd
  exact hdisk job hj ha d hd (hpath job hj d hd)

/-- The second pass after job j1 was restored to /home/u/restore/a.txt. -/
theorem downloadPass_idempotent_example :
    downloadPass testOutputer (envAt "/home/u") "restore/" [doneJob]
        ⟨fsOf ["/home/u/restore/a.txt"] ["/home/u/restore", "/home/u", "/home", "/"], [], []⟩
      = .ok ⟨fsOf ["/home/u/restore/a.txt"] ["/home/u/restore", "/home/u", "/home", "/"],
          [], []⟩ :=
  downloadPass_idempotent testOutputer (envAt "/home/u") "restore/" [doneJob]
    ⟨fsOf [] ["/home/u", "/home", "/"], [], []⟩
    ⟨fsOf ["/home/u/restore/a.txt"] ["/home/u/restore", "/home/u", "/home", "/"], ["j1"],
      ["/home/u/restore/a.txt"]⟩
    (by
      intro job hj d hd
      simp only [List.mem_singleton] at hj
      subst hj
      simp only [doneJob, Option.some.injEq] at hd
      subst hd
      decide)
    (by rfl)
theorem splitElems_ne_nil (cs : List Char) : splitElems cs ≠ [] := by
  cases cs with
  | nil => simp [splitElems]
  | cons c cs =>
    unfold splitElems
    by_cases h : c = '/'
    · simp [h]
    · simp only [h, if_false]
      split <;> simp

theorem splitElems_noSlash (cs : List Char) : ∀ e ∈ splitElems cs, '/' ∉ e := by
  induction cs with
  | nil => intro e he; simp [splitElems] at he; subst he; simp
  | cons c cs ih =>
    intro e he
    unfold splitElems at he
    by_cases h : c = '/'
    · simp only [h, if_true, List.mem_cons] at he
      rcases he with rfl | he
      · simp
      · exact ih e he
    · simp only [h, if_false] at he
      split at he
      · simp at he; subst he; simpa using fun hc => h hc.symm
      · next e1 es heq =>
        rcases List.mem_cons.mp he with rfl | he1
        · have h1 : '/' ∉ e1 := ih e1 (by rw [heq]; exact List.mem_cons_self _ _)
          intro hmem
          rcases List.mem_cons.mp hmem with hc | hc
          · exact h hc.symm
          · exact h1 hc
        · exact ih e (by rw [heq]; exact List.mem_cons_of_mem _ he1)

theorem splitElems_append_slash (e rest : List Char) (h : '/' ∉ e) :
    splitElems (e ++ '/' :: rest) = e :: splitElems rest := by
  induction e with
  | nil => simp [splitElems]
  | cons c cs ih =>
    have hc : c ≠ '/' := fun hc => h (by simp [hc])
    have hcs : '/' ∉ cs := fun hm => h (List.mem_cons_of_mem _ hm)
    have hstep : splitElems ((c :: cs) ++ '/' :: rest) =
        match splitElems (cs ++ '/' :: rest) with
        | [] => [[c]]
        | e :: es => (c :: e) :: es := by
      simp only [List.cons_append, splitElems, hc, if_false]
      rfl
    rw [hstep, ih hcs]

theorem splitElems_of_noSlash (e : List Char) (h : '/' ∉ e) : splitElems e = [e] := by
  induction e with
  | nil => rfl
  | cons c cs ih =>
    have hc : c ≠ '/' := fun hc => h (by simp [hc])
    have hcs : '/' ∉ cs := fun hm => h (List.mem_cons_of_mem _ hm)
    simp only [splitElems, hc, if_false, ih hcs]

theorem splitElems_joinElems (es : List (List Char)) (hne : es ≠ [])
    (h : ∀ e ∈ es, '/' ∉ e) : splitElems (joinElems es) = es := by
  induction es with
  | nil => exact absurd rfl hne
  | cons e rest ih =>
    cases rest with
    | nil => simpa [joinElems] using splitElems_of_noSlash e (h e (List.mem_cons_self _ _))
    | cons e1 rest1 =>
      simp only [joinElems]
      rw [splitElems_append_slash e _ (h e (List.mem_cons_self _ _)),
        ih (by simp) (fun x hx => h x (List.mem_cons_of_mem _ hx))]

theorem cleanStep_name (rooted : Bool) (stack : List (List Char)) (e : List Char)
    (h : isNameElem e) : cleanStep rooted stack e = e :: stack := by
  unfold cleanStep
  simp [h.1, h.2.1, h.2.2.1]

theorem cleanElems_names (rooted : Bool) (es : List (List Char)) :
    ∀ stack, (∀ e ∈ es, isNameElem e) → cleanElems rooted stack es = es.reverse ++ stack := by
  induction es with
  | nil => intro stack _; simp [cleanElems]
  | cons e rest ih =>
    intro stack h
    simp only [cleanElems, cleanStep_name rooted stack e (h e (List.mem_cons_self _ _))]
    rw [ih (e :: stack) (fun x hx => h x (List.mem_cons_of_mem _ hx))]
    simp

/-- Elements that stay inside leave the part of the stack below them alone, and what they
write above it are names. -/
theorem cleanElems_staysInside (es : List (List Char)) :
    ∀ top : List (List Char), (∀ e ∈ es, '/' ∉ e) → (∀ e ∈ top, isNameElem e) →
      staysInside top.length es = true →
      ∃ top1 : List (List Char), (∀ e ∈ top1, isNameElem e) ∧
        ∀ base, cleanElems true (top ++ base) es = top1 ++ base := by
  induction es with
  | nil =>
    intro top _ htop _
    exact ⟨top, htop, fun base => rfl⟩
  | cons e rest ih =>
    intro top hsl htop hstay
    have hslR : ∀ x ∈ rest, '/' ∉ x := fun x hx => hsl x (List.mem_cons_of_mem _ hx)
    unfold staysInside at hstay
    by_cases h1 : e = []
    · simp only [h1, if_true] at hstay
      obtain ⟨top1, ht1, hc⟩ := ih top hslR htop hstay
      exact ⟨top1, ht1, fun base => by
        simp only [cleanElems, cleanStep, h1, if_true]
        exact hc base⟩
    · by_cases h2 : e = ['.']
      · simp only [h1, h2, if_false, if_true] at hstay
        obtain ⟨top1, ht1, hc⟩ := ih top hslR htop (by simpa using hstay)
        exact ⟨top1, ht1, fun base => by
          simp only [cleanElems, cleanStep, h2]
          simpa using hc base⟩
      · by_cases h3 : e = ['.', '.']
        · cases top with
          | nil => simp [h3] at hstay
          | cons t top2 =>
            have hstay2 : staysInside top2.length rest = true := by
              simpa [h3] using hstay
            obtain ⟨top1, ht1, hc⟩ := ih top2 hslR
              (fun x hx => htop x (List.mem_cons_of_mem _ hx)) hstay2
            have ht : t ≠ ['.', '.'] := (htop t (List.mem_cons_self _ _)).2.2.1
            exact ⟨top1, ht1, fun base => by
              simp only [cleanElems, cleanStep, h3]
              simpa [ht] using hc base⟩
        · simp only [h1, h2, h3, if_false] at hstay
          have hname : isNameElem e := ⟨h1, h2, h3, hsl e (List.mem_cons_self _ _)⟩
          obtain ⟨top1, ht1, hc⟩ := ih (e :: top) hslR
            (by
              intro x hx
              rcases List.mem_cons.mp hx with rfl | hx1
              · exact hname
              · exact htop x hx1)
            (by simpa using hstay)
          exact ⟨top1, ht1, fun base => by
            simp only [cleanElems, cleanStep_name true (top ++ base) e hname]
            simpa using hc base⟩

/-- Clean leaves a rooted path of names as it is. -/
theorem cleanChars_rooted_names (names : List (List Char)) (hne : names ≠ [])
    (h : ∀ e ∈ names, isNameElem e) :
    cleanChars ('/' :: joinElems names) = '/' :: joinElems names := by
  unfold cleanChars
  have hsplit : splitElems ('/' :: joinElems names) = [] :: names := by
    simp only [splitElems, if_true]
    rw [splitElems_joinElems names hne (fun e he => (h e he).2.2.2)]
  simp only [decide_True]
  rw [hsplit]
  have : cleanElems true [] ([] :: names) = names.reverse := by
    simp only [cleanElems, cleanStep, if_true]
    rw [cleanElems_names true names [] h]
    simp
  rw [this]
  simp [renderPath]

/-- Joining a path to /restore and cleaning: when the path stays inside, the result is
/restore followed by names. -/
theorem join_restore_staysInside (p : String)
    (h : staysInside 0 (splitElems p.data) = true) :
    ∃ names : List (List Char), (∀ e ∈ names, isNameElem e) ∧
      Join ["/restore", p] =
        String.mk ('/' :: joinElems (['r', 'e', 's', 't', 'o', 'r', 'e'] :: names)) := by
  obtain ⟨top1, hnames, hclean⟩ := cleanElems_staysInside (splitElems p.data) []
    (splitElems_noSlash p.data) (by simp) h
  refine ⟨top1.reverse, fun e he => hnames e (List.mem_reverse.mp he), ?_⟩
  have hjoin : Join ["/restore", p] =
      Clean (String.mk (joinElems ["/restore".data, p.data])) := by
    simp [Join, List.dropWhile]
  have hdata : joinElems ["/restore".data, p.data] =
      '/' :: (['r', 'e', 's', 't', 'o', 'r', 'e'] ++ '/' :: p.data) := rfl
  have hsplit : splitElems ('/' :: (['r', 'e', 's', 't', 'o', 'r', 'e'] ++ '/' :: p.data)) =
      [] :: ['r', 'e', 's', 't', 'o', 'r', 'e'] :: splitElems p.data := by
    have h1 := splitElems_append_slash ['r', 'e', 's', 't', 'o', 'r', 'e'] p.data (by decide)
    rw [show splitElems ('/' :: (['r', 'e', 's', 't', 'o', 'r', 'e'] ++ '/' :: p.data)) =
        [] :: splitElems (['r', 'e', 's', 't', 'o', 'r', 'e'] ++ '/' :: p.data) from by
      simp [splitElems]]
    rw [h1]
  have hstack : cleanElems true []
      ([] :: ['r', 'e', 's', 't', 'o', 'r', 'e'] :: splitElems p.data) =
      top1 ++ [['r', 'e', 's', 't', 'o', 'r', 'e']] := by
    have := hclean [['r', 'e', 's', 't', 'o', 'r', 'e']]
    simp only [List.nil_append] at this
    rw [← this]
    simp [cleanElems, cleanStep]
  rw [hjoin]
  unfold Clean
  simp only [hdata]
  unfold cleanChars
  simp only [decide_True]
  rw [hsplit, hstack]
  simp [renderPath]

/-- C5 as stated fails: the logical path ../../etc/passwd does not fail and resolves to
/etc/passwd, which is neither /restore nor a path that begins with /restore/. -/
theorem restoredFilePath_escapes_base :
    RestoredFilePath ("/", none) "/restore" "../../etc/passwd" = ("/etc/passwd", none) ∧
    "/etc/passwd" ≠ "/restore" ∧
    HasPrefix "/etc/passwd" "/restore/" = false := by
  decide

/-- C5 (amended): for the base path /restore and every logical path whose `..` elements
stay inside (each `..` is matched by an earlier name of the logical path, as in every path
without a `..` element), RestoredFilePath("/restore", p) does not fail and returns a path
that is /restore itself or begins with "/restore/"; a/b.txt resolves to /restore/a/b.txt.
A logical path whose `..` elements climb above the base is cleaned in the same way and may
resolve outside /restore: ../../etc/passwd resolves to /etc/passwd. -/
theorem restoredFilePath_contained (getwd : String × Option String) :
    (∀ p : String, staysInside 0 (splitElems p.data) = true →
      ∃ r, RestoredFilePath getwd "/restore" p = (r, none) ∧
        (r = "/restore" ∨ HasPrefix r "/restore/" = true)) ∧
    RestoredFilePath getwd "/restore" "a/b.txt" = ("/restore/a/b.txt", none) ∧
    RestoredFilePath getwd "/restore" "../../etc/passwd" = ("/etc/passwd", none) := by
  refine ⟨?_, ?_, ?_⟩
  · intro p h
    obtain ⟨names, hnames, hjoin⟩ := join_restore_staysInside p h
    have hall : ∀ e ∈ ['r', 'e', 's', 't', 'o', 'r', 'e'] :: names, isNameElem e := by
      intro e he
      rcases List.mem_cons.mp he with rfl | he1
      · exact ⟨by decide, by decide, by decide, by decide⟩
      · exact hnames e he1
    refine ⟨String.mk ('/' :: joinElems (['r', 'e', 's', 't', 'o', 'r', 'e'] :: names)), ?_, ?_⟩
    · unfold RestoredFilePath
      rw [hjoin]
      unfold Abs
      rw [if_pos (by simp [IsAbs])]
      unfold Clean
      simp only
      rw [cleanChars_rooted_names _ (by simp) hall]
    · cases names with
      | nil => left; rfl
      | cons e rest =>
        right
        unfold HasPrefix
        rw [List.isPrefixOf_iff_prefix]
        refine ⟨joinElems (e :: rest), ?_⟩
        simp [joinElems]
  · have hj : Join ["/restore", "a/b.txt"] = "/restore/a/b.txt" := by decide
    unfold RestoredFilePath
    rw [hj]
    unfold Abs
    rw [if_pos (by decide)]
    have hc : Clean "/restore/a/b.txt" = "/restore/a/b.txt" := by decide
    rw [hc]
  · have hj : Join ["/restore", "../../etc/passwd"] = "/etc/passwd" := by decide
    unfold RestoredFilePath
    rw [hj]
    unfold Abs
    rw [if_pos (by decide)]
    have hc : Clean "/etc/passwd" = "/etc/passwd" := by decide
    rw [hc]

/-- The logical path docs/../a/./b.txt stays under /restore. -/
theorem restoredFilePath_contained_witness :
    ∃ r, RestoredFilePath ("", some "getwd: no such file or directory") "/restore"
        "docs/../a/./b.txt" = (r, none) ∧
      (r = "/restore" ∨ HasPrefix r "/restore/" = true) :=
  (restoredFilePath_contained ("", some "getwd: no such file or directory")).1
    "docs/../a/./b.txt" (by decide)

end GlacierRestore
